import Mathlib

/-!
# Verification of the talon-sys typed-value exchange protocol

Shallow embedding of `src/talon-sys/src/lib.rs` (the FFI boundary layer of
the Talon engine bindings).  Bytes are modelled as `Nat` (< 256 wherever a
real byte is produced), byte buffers as `List Nat`.  IEEE floats are carried
by their bit patterns (`Nat` < 2^64 for f64, < 2^32 for f32): the codec under
verification never computes with floats, it only moves their bytes, so the
bit-pattern view is exact.  Rust `String` values are modelled by their UTF-8
byte sequences together with the validity predicate that `std::str::from_utf8`
checks.  `serde_json::Value` is modelled by the `Json` inductive below with a
byte-level compact serializer and parser mirroring serde_json's `to_string` /
`from_str` (JSON numbers are modelled as integers; float-number printing is
outside the byte-moving code under audit, and objects are association lists
in serialization order).
-/

namespace Talon

/-- Little-endian byte decomposition: `toLe k n` is the `k`-byte
little-endian encoding of `n`, mirroring Rust's `to_le_bytes`. -/
def toLe : Nat → Nat → List Nat
  | 0, _ => []
  | k + 1, n => n % 256 :: toLe k (n / 256)

/-- Little-endian recomposition, mirroring Rust's `from_le_bytes`. -/
def fromLe : List Nat → Nat
  | [] => 0
  | b :: bs => b + 256 * fromLe bs

/-! ## UTF-8 validity

`decode_value` calls `std::str::from_utf8` on Text/Jsonb payloads; the
following executable predicate is that validity check: ASCII, 2-byte
(C2–DF), 3-byte (E0 A0–BF / E1–EC 80–BF / ED 80–9F / EE–EF 80–BF) and
4-byte (F0 90–BF / F1–F3 80–BF / F4 80–8F) sequences, continuation bytes
80–BF, no overlong forms, no surrogates, max U+10FFFF. -/

/-- Number of bytes of a UTF-8 sequence headed by lead byte `b`
(0 = invalid lead byte). -/
def charLen (b : Nat) : Nat :=
  if b < 0x80 then 1
  else if b < 0xC2 then 0
  else if b ≤ 0xDF then 2
  else if b ≤ 0xEF then 3
  else if b ≤ 0xF4 then 4
  else 0

/-- Lower bound for the first continuation byte after lead `b`. -/
def cont1Lo (b : Nat) : Nat :=
  if b = 0xE0 then 0xA0 else if b = 0xF0 then 0x90 else 0x80

/-- Upper bound for the first continuation byte after lead `b`. -/
def cont1Hi (b : Nat) : Nat :=
  if b = 0xED then 0x9F else if b = 0xF4 then 0x8F else 0xBF

/-- Plain continuation byte test (0x80–0xBF). -/
def contB (c : Nat) : Bool := decide (0x80 ≤ c ∧ c ≤ 0xBF)

/-- Check the continuation bytes following lead byte `b`. -/
def contOk (b : Nat) : List Nat → Bool
  | [] => true
  | c1 :: cs => (decide (cont1Lo b ≤ c1 ∧ c1 ≤ cont1Hi b)) && cs.all contB

/-- The UTF-8 validity check of `std::str::from_utf8`. -/
def validUtf8 : List Nat → Bool
  | [] => true
  | b :: rest =>
    if charLen b = 0 then false
    else if charLen b - 1 ≤ rest.length then
      contOk b (rest.take (charLen b - 1)) && validUtf8 (rest.drop (charLen b - 1))
    else false
  termination_by l => l.length
  decreasing_by simp [List.length_drop]; omega

/-! ## JSON model

`Value::Jsonb` holds a `serde_json::Value`.  `encode_value` serializes it
with `serde_json`'s compact `to_string` and `decode_value` re-parses it with
`serde_json::from_str`.  The model below captures both at the byte level:
`Json.toBytes` is the compact serializer (`"` `\` and control characters
escaped, objects as association lists in serialization order) and
`Json.parse` the strict parser (whole input must be one JSON value).  JSON
numbers are modelled as integers: the bit-exact shortest-float printing used
by serde_json for float numbers is orthogonal to the byte-moving codec under
audit.  The parser handles exactly the escape forms the serializer can emit
plus the remaining simple JSON escapes. -/

inductive Json where
  | null
  | bool (b : Bool)
  | num (n : Int)
  | str (s : List Nat)
  | arr (elems : List Json)
  | obj (fields : List (List Nat × Json))

/-- Little-endian decimal digits of `n` (first argument is fuel, any value
at least `n` is enough). -/
def natDigitsAux : Nat → Nat → List Nat
  | 0, _ => []
  | f + 1, n => if n = 0 then [] else n % 10 :: natDigitsAux f (n / 10)

/-- ASCII decimal rendering of a natural number. -/
def natBytes (n : Nat) : List Nat :=
  if n = 0 then [48] else (natDigitsAux n n).reverse.map (fun d => d + 48)

/-- ASCII decimal rendering of an integer (minus sign for negatives). -/
def intBytes : Int → List Nat
  | Int.ofNat n => natBytes n
  | Int.negSucc m => 45 :: natBytes (m + 1)

/-- Lowercase hex digit byte for a value below 16. -/
def hexDigit (n : Nat) : Nat := if n < 10 then 48 + n else 87 + n

/-- serde_json's escaping of one string byte: `\"` `\\`, short escapes for
backspace, tab, newline, formfeed, carriage return, `\u00XX` for the other
control bytes, everything else verbatim. -/
def esc1 (b : Nat) : List Nat :=
  if b = 34 then [92, 34]
  else if b = 92 then [92, 92]
  else if b = 8 then [92, 98]
  else if b = 9 then [92, 116]
  else if b = 10 then [92, 110]
  else if b = 12 then [92, 102]
  else if b = 13 then [92, 114]
  else if b < 32 then [92, 117, 48, 48, hexDigit (b / 16), hexDigit (b % 16)]
  else [b]

/-- Escape a whole string body. -/
def escape (s : List Nat) : List Nat := (s.map esc1).flatten

/-- A serialized JSON string: quote, escaped body, quote. -/
def strBytes (s : List Nat) : List Nat := 34 :: escape s ++ [34]

mutual
/-- serde_json's compact `to_string` at the byte level. -/
def Json.toBytes : Json → List Nat
  | .null => [110, 117, 108, 108]
  | .bool true => [116, 114, 117, 101]
  | .bool false => [102, 97, 108, 115, 101]
  | .num n => intBytes n
  | .str s => strBytes s
  | .arr es => 91 :: arrBytes es ++ [93]
  | .obj fs => 123 :: objBytes fs ++ [125]
  termination_by structural j => j

/-- Comma-separated serialization of array elements. -/
def arrBytes : List Json → List Nat
  | [] => []
  | [j] => j.toBytes
  | j :: k :: rest => j.toBytes ++ 44 :: arrBytes (k :: rest)
  termination_by structural l => l

/-- Comma-separated serialization of object fields (`"key":value`). -/
def objBytes : List (List Nat × Json) → List Nat
  | [] => []
  | [(k, v)] => strBytes k ++ 58 :: v.toBytes
  | (k, v) :: kv :: rest => strBytes k ++ 58 :: v.toBytes ++ 44 :: objBytes (kv :: rest)
  termination_by structural l => l
end

/-- ASCII digit test. -/
def isDigit (b : Nat) : Bool := decide (48 ≤ b ∧ b ≤ 57)

/-- Numeric value of a big-endian ASCII digit string. -/
def digitsVal (l : List Nat) : Nat := l.foldl (fun a b => a * 10 + (b - 48)) 0

/-- Hex digit test (both cases). -/
def hexOk (b : Nat) : Bool :=
  decide ((48 ≤ b ∧ b ≤ 57) ∨ (97 ≤ b ∧ b ≤ 102) ∨ (65 ≤ b ∧ b ≤ 70))

/-- Value of a hex digit byte. -/
def hexVal (b : Nat) : Nat :=
  if b ≤ 57 then b - 48 else if b ≤ 70 then b - 55 else b - 87

/-- Decoding of a simple (single-letter) JSON string escape. -/
def simpleEsc (e : Nat) : Option Nat :=
  if e = 34 then some 34
  else if e = 92 then some 92
  else if e = 47 then some 47
  else if e = 98 then some 8
  else if e = 116 then some 9
  else if e = 110 then some 10
  else if e = 102 then some 12
  else if e = 114 then some 13
  else none

/-- Read four hex digits. -/
def readHex4 : List Nat → Option (Nat × List Nat)
  | h1 :: h2 :: h3 :: h4 :: r =>
      if hexOk h1 && hexOk h2 && hexOk h3 && hexOk h4 then
        some (hexVal h1 * 4096 + hexVal h2 * 256 + hexVal h3 * 16 + hexVal h4, r)
      else none
  | _ => none

/-- One string-escape step (input is positioned after the backslash); ASCII
`\uXXXX` escapes are resolved to their byte, which covers everything the
serializer emits. -/
def escStep : List Nat → Option (Nat × List Nat)
  | [] => none
  | e :: r =>
      if e = 117 then
        (readHex4 r).bind fun p => if p.1 < 128 then some p else none
      else
        (simpleEsc e).map fun c => (c, r)

/-- String-body scanning, positioned after the opening quote; returns the
unescaped body and the input after the closing quote.  Fuel-indexed: any
fuel beyond the body length is enough. -/
def parseStrSt : Nat → List Nat → Option (List Nat × List Nat)
  | 0, _ => none
  | _ + 1, [] => none
  | f + 1, b :: r =>
      if b = 34 then some ([], r)
      else if b = 92 then
        (escStep r).bind fun p => (parseStrSt f p.2).map fun q => (p.1 :: q.1, q.2)
      else if b < 32 then none
      else (parseStrSt f r).map fun q => (b :: q.1, q.2)

/-- Expect one given byte. -/
def expectByte (b : Nat) : List Nat → Option (List Nat)
  | [] => none
  | c :: r => if c = b then some r else none

mutual
/-- One JSON value, returning the remaining input.  Fuel-indexed: any fuel
beyond the serialized size is enough. -/
def parseVal : Nat → List Nat → Option (Json × List Nat)
  | 0, _ => none
  | _ + 1, [] => none
  | f + 1, b :: r =>
      if b = 110 then
        ((expectByte 117 r).bind (expectByte 108) |>.bind (expectByte 108)).map
          fun r2 => (Json.null, r2)
      else if b = 116 then
        ((expectByte 114 r).bind (expectByte 117) |>.bind (expectByte 101)).map
          fun r2 => (Json.bool true, r2)
      else if b = 102 then
        ((expectByte 97 r).bind (expectByte 108) |>.bind (expectByte 115)
            |>.bind (expectByte 101)).map
          fun r2 => (Json.bool false, r2)
      else if b = 34 then
        (parseStrSt f r).map fun p => (Json.str p.1, p.2)
      else if b = 91 then parseElems f r
      else if b = 123 then parseFields f r
      else if b = 45 then
        (let sp := r.span isDigit
         if sp.1.isEmpty then none
         else some (Json.num (-(digitsVal sp.1 : Int)), sp.2))
      else if isDigit b then
        (let sp := (b :: r).span isDigit
         some (Json.num (digitsVal sp.1), sp.2))
      else none

/-- Array contents, positioned after `[`. -/
def parseElems : Nat → List Nat → Option (Json × List Nat)
  | 0, _ => none
  | _ + 1, [] => none
  | f + 1, b :: r =>
      if b = 93 then some (Json.arr [], r)
      else
        (parseVal f (b :: r)).bind fun p =>
          (afterElem f p.2).map fun q => (Json.arr (p.1 :: q.1), q.2)

/-- Separator handling inside an array: either `,` and another element, or
the closing `]`. -/
def afterElem : Nat → List Nat → Option (List Json × List Nat)
  | 0, _ => none
  | _ + 1, [] => none
  | f + 1, c :: r =>
      if c = 44 then
        (parseVal f r).bind fun p =>
          (afterElem f p.2).map fun q => (p.1 :: q.1, q.2)
      else if c = 93 then some ([], r)
      else none

/-- Object contents, positioned after an opening brace. -/
def parseFields : Nat → List Nat → Option (Json × List Nat)
  | 0, _ => none
  | _ + 1, [] => none
  | f + 1, b :: r =>
      if b = 125 then some (Json.obj [], r)
      else if b = 34 then
        (parseStrSt f r).bind fun kp =>
          (expectByte 58 kp.2).bind fun r2 =>
            (parseVal f r2).bind fun vp =>
              (afterField f vp.2).map fun q =>
                (Json.obj ((kp.1, vp.1) :: q.1), q.2)
      else none

/-- Separator handling inside an object: either `,` and another
`"key":value` field, or the closing brace. -/
def afterField : Nat → List Nat → Option (List (List Nat × Json) × List Nat)
  | 0, _ => none
  | _ + 1, [] => none
  | f + 1, c :: r =>
      if c = 44 then
        (expectByte 34 r).bind fun r1 =>
          (parseStrSt f r1).bind fun kp =>
            (expectByte 58 kp.2).bind fun r2 =>
              (parseVal f r2).bind fun vp =>
                (afterField f vp.2).map fun q => ((kp.1, vp.1) :: q.1, q.2)
      else if c = 125 then some ([], r)
      else none
end

/-- serde_json's `from_str`: the whole input must be exactly one JSON
value. -/
def Json.parse (bs : List Nat) : Option Json :=
  (parseVal (bs.length + 1) bs).bind fun p => if p.2.isEmpty then some p.1 else none

/-! ## The Value union and the binary TLV codec

Mirrors the `Value` enum and `encode_value` / `decode_value` /
`decode_rows_bin` / `decode_vector_bin` of `src/talon-sys/src/lib.rs`.
`decode_value(data, pos)` in the Rust reads only at positions `≥ pos`; it is
embedded as `decodeV` acting on the suffix `data.drop pos`, with each
absolute bounds check `off + k > data.len()` rendered as the equivalent
check on the suffix. -/

inductive Value where
  | null
  | integer (i : Int)
  | float (bits : Nat)
  | text (s : List Nat)
  | blob (b : List Nat)
  | boolean (b : Bool)
  | jsonb (j : Json)
  | vector (v : List Nat)
  | timestamp (t : Int)
  | geoPoint (lat lon : Nat)

/-- Rust `i64::to_le_bytes`: the 8-byte little-endian two's-complement
encoding (for `i` in the i64 range). -/
def i64Bytes (i : Int) : List Nat :=
  toLe 8 (if 0 ≤ i then i.toNat else (i + 2 ^ 64).toNat)

/-- Inverse of `i64Bytes` on 8 little-endian bytes
(`i64::from_le_bytes`). -/
def decI64 (bs : List Nat) : Int :=
  if fromLe bs < 2 ^ 63 then (fromLe bs : Int) else (fromLe bs : Int) - 2 ^ 64

/-- `encode_value` of lib.rs: tag byte, then the tag-specific payload
(the Rust appends to a buffer; the produced bytes are modelled directly).
Length fields are `len as u32`, i.e. the low 32 bits. -/
def encode_value : Value → List Nat
  | .null => [0]
  | .integer i => 1 :: i64Bytes i
  | .float bits => 2 :: toLe 8 bits
  | .text s => 3 :: (toLe 4 s.length ++ s)
  | .blob b => 4 :: (toLe 4 b.length ++ b)
  | .boolean b => [5, if b then 1 else 0]
  | .jsonb j => 6 :: (toLe 4 (Json.toBytes j).length ++ Json.toBytes j)
  | .vector v => 7 :: (toLe 4 v.length ++ (v.map (toLe 4)).flatten)
  | .timestamp t => 8 :: i64Bytes t
  | .geoPoint lat lon => 9 :: (toLe 8 lat ++ toLe 8 lon)

/-- `encode_params` of lib.rs: `param_count: u32` then each value. -/
def encode_params (params : List Value) : List Nat :=
  toLe 4 params.length ++ (params.map encode_value).flatten

/-- Payload size of each tag as documented ("consumed" = 1 + payload). -/
def payloadSize : Value → Nat
  | .null => 0
  | .integer _ => 8
  | .float _ => 8
  | .text s => 4 + s.length
  | .blob b => 4 + b.length
  | .boolean _ => 1
  | .jsonb j => 4 + (Json.toBytes j).length
  | .vector v => 4 + 4 * v.length
  | .timestamp _ => 8
  | .geoPoint _ _ => 16

/-- The f32 reading loop of `decode_value` tag 7 (`for i in 0..dim`,
4 bytes each). -/
def readF32s : Nat → List Nat → List Nat
  | 0, _ => []
  | n + 1, bs => fromLe (bs.take 4) :: readF32s n (bs.drop 4)

/-- `decode_value` of lib.rs on the suffix starting at the decode
position: returns the decoded value and the consumed byte count, or the
error message of the corresponding failing check.  (The dynamic part of
serde_json's parse error message is abstracted to a fixed text.) -/
def decodeV : List Nat → Except String (Value × Nat)
  | [] => .error "unexpected end of binary data"
  | tag :: rest =>
      if tag = 0 then .ok (.null, 1)
      else if tag = 1 then
        if rest.length < 8 then .error "truncated i64"
        else .ok (.integer (decI64 (rest.take 8)), 9)
      else if tag = 2 then
        if rest.length < 8 then .error "truncated f64"
        else .ok (.float (fromLe (rest.take 8)), 9)
      else if tag = 3 then
        if rest.length < 4 then .error "truncated text len"
        else
          if (rest.drop 4).length < fromLe (rest.take 4) then .error "truncated text data"
          else if validUtf8 ((rest.drop 4).take (fromLe (rest.take 4))) then
            .ok (.text ((rest.drop 4).take (fromLe (rest.take 4))), 5 + fromLe (rest.take 4))
          else .error "invalid utf8 in text"
      else if tag = 4 then
        if rest.length < 4 then .error "truncated blob len"
        else
          if (rest.drop 4).length < fromLe (rest.take 4) then .error "truncated blob data"
          else .ok (.blob ((rest.drop 4).take (fromLe (rest.take 4))), 5 + fromLe (rest.take 4))
      else if tag = 5 then
        if rest.isEmpty then .error "truncated bool"
        else .ok (.boolean (rest.headD 0 != 0), 2)
      else if tag = 6 then
        if rest.length < 4 then .error "truncated jsonb len"
        else
          if (rest.drop 4).length < fromLe (rest.take 4) then .error "truncated jsonb data"
          else if validUtf8 ((rest.drop 4).take (fromLe (rest.take 4))) then
            (Json.parse ((rest.drop 4).take (fromLe (rest.take 4)))).elim
              (.error "jsonb parse: invalid json")
              (fun j => .ok (.jsonb j, 5 + fromLe (rest.take 4)))
          else .error "invalid utf8 in jsonb"
      else if tag = 7 then
        if rest.length < 4 then .error "truncated vec dim"
        else
          if (rest.drop 4).length < fromLe (rest.take 4) * 4 then .error "truncated vec data"
          else .ok (.vector (readF32s (fromLe (rest.take 4)) (rest.drop 4)),
            5 + fromLe (rest.take 4) * 4)
      else if tag = 8 then
        if rest.length < 8 then .error "truncated timestamp"
        else .ok (.timestamp (decI64 (rest.take 8)), 9)
      else if tag = 9 then
        if rest.length < 16 then .error "truncated geopoint"
        else .ok (.geoPoint (fromLe (rest.take 8)) (fromLe ((rest.drop 8).take 8)), 17)
      else .error ("unknown binary type tag: " ++ Nat.repr tag)

/-- `decode_value(data, pos)`. -/
def decode_value (data : List Nat) (pos : Nat) : Except String (Value × Nat) :=
  decodeV (data.drop pos)

/-- The inner cell loop of `decode_rows_bin` (`for _ in 0..col_count`),
threading the cursor. -/
def decodeCells (data : List Nat) : Nat → Nat → Except String (List Value × Nat)
  | pos, 0 => .ok ([], pos)
  | pos, n + 1 =>
      (decode_value data pos).bind fun p =>
        (decodeCells data (pos + p.2) n).map fun q => (p.1 :: q.1, q.2)

/-- The outer row loop of `decode_rows_bin` (`for _ in 0..row_count`). -/
def decodeRows (data : List Nat) (cols : Nat) : Nat → Nat → Except String (List (List Value) × Nat)
  | pos, 0 => .ok ([], pos)
  | pos, r + 1 =>
      (decodeCells data pos cols).bind fun p =>
        (decodeRows data cols p.2 r).map fun q => (p.1 :: q.1, q.2)

/-- `decode_rows_bin` of lib.rs: 8-byte header `row_count:u32 LE`,
`col_count:u32 LE`, then `row_count × col_count` TLV cells. -/
def decode_rows_bin (data : List Nat) : Except String (List (List Value)) :=
  if data.length < 8 then .error "binary result too short"
  else
    (decodeRows data (fromLe ((data.drop 4).take 4)) 8 (fromLe (data.take 4))).map
      Prod.fst

/-- The entry loop of `decode_vector_bin` (12-byte entries, `id:u64 LE` +
`distance:f32 LE`; distances are carried as f32 bit patterns). -/
def readHits : Nat → List Nat → List (Nat × Nat)
  | 0, _ => []
  | n + 1, bs => (fromLe (bs.take 8), fromLe ((bs.drop 8).take 4)) :: readHits n (bs.drop 12)

/-- `decode_vector_bin` of lib.rs. -/
def decode_vector_bin (data : List Nat) : Except String (List (Nat × Nat)) :=
  if data.length < 4 then .error "vector binary result too short"
  else
    if data.length < 4 + fromLe (data.take 4) * 12 then
      .error "vector binary result truncated"
    else .ok (readHits (fromLe (data.take 4)) (data.drop 4))

/-- Well-formedness of a `Value` under the model: machine-integer payloads
in range, text/JSON strings valid UTF-8, and variable payload lengths
below 2^32 (the width of the encoded length field). -/
def ValueWF : Value → Bool
  | .null => true
  | .integer i => decide (-(2 ^ 63 : Int) ≤ i ∧ i < 2 ^ 63)
  | .float bits => decide (bits < 2 ^ 64)
  | .text s => validUtf8 s && decide (s.length < 2 ^ 32)
  | .blob b => b.all (fun x => decide (x < 256)) && decide (b.length < 2 ^ 32)
  | .boolean _ => true
  | .jsonb j => validUtf8 (Json.toBytes j) && decide ((Json.toBytes j).length < 2 ^ 32)
  | .vector v => v.all (fun x => decide (x < 2 ^ 32)) && decide (v.length < 2 ^ 32)
  | .timestamp t => decide (-(2 ^ 63 : Int) ≤ t ∧ t < 2 ^ 63)
  | .geoPoint lat lon => decide (lat < 2 ^ 64 ∧ lon < 2 ^ 64)

/-! ## Round-trip: decimal numbers -/

/-- True when the input does not continue with a digit (so a decimal
number just before it ends exactly there). -/
def headND : List Nat → Bool
  | [] => true
  | b :: _ => !(isDigit b)

/-- The property proved by the parser round-trip theorem, as a predicate
(used to thread the strong-induction hypothesis through the element
lemmas). -/
def MainP (y : Json) : Prop :=
  ∀ (f : Nat) (rest : List Nat), (Json.toBytes y).length < f → headND rest = true →
    parseVal f (Json.toBytes y ++ rest) = some (y, rest)

/-! ## RowSet framing -/

/-- The byte stream of one row: each cell's TLV encoding, concatenated. -/
def cellsBytes (cells : List Value) : List Nat := (cells.map encode_value).flatten

/-- The byte stream of a whole grid in row-major order. -/
def rowsBytes (rows : List (List Value)) : List Nat := (rows.map cellsBytes).flatten

/-! ## Boundary-call model for `Talon::run_sql` / `run_sql_param` -/

/-- Outcome of a boundary call that fills `(out_data, out_len)`: the status
code and the returned buffer (`none` models a null pointer). -/
structure BoundaryOut where
  rc : Int
  buf : Option (List Nat)

/-- `Talon::run_sql` of lib.rs, parameterized by the outcome of
`talon_run_sql_bin`: non-zero status is an error, a null or empty buffer is
an empty result, otherwise the buffer is decoded with `decode_rows_bin`. -/
def run_sql (out : BoundaryOut) : Except String (List (List Value)) :=
  if out.rc ≠ 0 then .error "run_sql FFI failed"
  else
    match out.buf with
    | none => .ok []
    | some data => if data.length = 0 then .ok [] else decode_rows_bin data

/-- `Talon::run_sql_param` of lib.rs: the parameters are shipped with
`encode_params`; the result path is identical to `run_sql`. -/
def run_sql_param (params : List Value) (out : BoundaryOut) :
    Except String (List (List Value)) :=
  if out.rc ≠ 0 then .error "run_sql_param FFI failed"
  else
    match out.buf with
    | none => .ok []
    | some data => if data.length = 0 then .ok [] else decode_rows_bin data

/-! ## Command-envelope projections -/

/-- UTF-8 bytes of an ASCII string (used for JSON keys and fixed texts). -/
def asciiBytes (s : String) : List Nat := s.data.map Char.toNat

/-- First-match association lookup (serde_json object keys are unique, so
this is `Map::get`). -/
def lookupField : List (List Nat × Json) → List Nat → Option Json
  | [], _ => none
  | (k2, v) :: rest, k => if k2 = k then some v else lookupField rest k

/-- `serde_json::Value::get` on an object (None on any other variant). -/
def jGet (j : Json) (k : List Nat) : Option Json :=
  match j with
  | .obj fs => lookupField fs k
  | _ => none

/-- `Value::as_bool`. -/
def asBool : Json → Option Bool
  | .bool b => some b
  | _ => none

/-- `Value::as_str`. -/
def asStr : Json → Option (List Nat)
  | .str s => some s
  | _ => none

/-- `Talon::exec_cmd` of lib.rs after the response JSON is parsed: `Ok` iff
the `ok` field is literally boolean true, otherwise `Err` with the `error`
string or the fixed placeholder "unknown". -/
def exec_cmd (resp : Json) : Except (List Nat) Unit :=
  if (jGet resp (asciiBytes "ok")).bind asBool = some true then .ok ()
  else .error (((jGet resp (asciiBytes "error")).bind asStr).getD (asciiBytes "unknown"))

/-- The hit projection of `FtsEngine::search`: `doc_id` must be a string and
`score` a number, otherwise the entry is dropped (`filter_map`).  Scores are
the model's JSON numbers. -/
def projHit (h : Json) : Option (List Nat × Int) :=
  match jGet h (asciiBytes "doc_id") with
  | some (.str d) =>
      match jGet h (asciiBytes "score") with
      | some (.num n) => some (d, n)
      | _ => none
  | _ => none

/-- The `data.hits` projection of `FtsEngine::search`: an absent or
non-array `hits` degrades to the empty list (`unwrap_or_default`). -/
def fts_search_hits (resp : Json) : List (List Nat × Int) :=
  match (jGet resp (asciiBytes "data")).bind (fun d => jGet d (asciiBytes "hits")) with
  | some (.arr hs) => hs.filterMap projHit
  | _ => []

/-- The `data.count` projection of `VectorEngine::count`: `as_u64` requires
a non-negative number, anything else defaults to 0 (`unwrap_or(0)`). -/
def vector_count (resp : Json) : Nat :=
  match (jGet resp (asciiBytes "data")).bind (fun d => jGet d (asciiBytes "count")) with
  | some (.num n) => if 0 ≤ n then n.toNat else 0
  | _ => 0

/-! ## Safe parameter binder (textual fallback)

Modelled from the spec: §4.3 "Safe parameter binder (textual fallback)".
The src/ tree of this repository ships only the binary parameter path
(`run_sql_param` + `encode_params`); the textual binder described by the
spec is not among the sources, so the definitions below follow the spec's
words: successive un-quoted `?` are replaced by the SQL literal rendering of
the corresponding Value, quoted literals are copied verbatim including the
doubled-quote escape, and an unterminated literal is copied through. -/

/-- Doubling of single quotes inside a quoted SQL literal. -/
def dupQuotes (s : List Nat) : List Nat :=
  (s.map (fun b => if b = 39 then [39, 39] else [b])).flatten

/-- Modelled from the spec: exact decimal text of a finite IEEE float given
as sign bit, biased exponent, mantissa and the format's parameters
(`fracBias` = mantissa-bits + bias − 1). -/
def floatDecCore (s expo mant mantBits fracBias : Nat) : List Nat :=
  let num := if expo = 0 then mant else mant + 2 ^ mantBits
  let e := if expo = 0 then 1 else expo
  let sign : List Nat := if s = 1 then [45] else []
  if fracBias ≤ e then sign ++ natBytes (num * 2 ^ (e - fracBias))
  else
    let k := fracBias - e
    let ip := num / 2 ^ k
    let fr := num % 2 ^ k
    if fr = 0 then sign ++ natBytes ip
    else
      let fd := natBytes (fr * 5 ^ k)
      let padded := List.replicate (k - fd.length) 48 ++ fd
      sign ++ natBytes ip ++ 46 ::
        (padded.reverse.dropWhile (fun b => b = 48)).reverse

/-- Modelled from the spec: decimal text of an f64 bit pattern. -/
def f64Dec (bits : Nat) : List Nat :=
  floatDecCore (bits / 2 ^ 63) (bits / 2 ^ 52 % 2 ^ 11) (bits % 2 ^ 52) 52 1075

/-- Modelled from the spec: decimal text of an f32 bit pattern. -/
def f32Dec (bits : Nat) : List Nat :=
  floatDecCore (bits / 2 ^ 31) (bits / 2 ^ 23 % 2 ^ 8) (bits % 2 ^ 23) 23 150

/-- Comma-join of rendered vector components. -/
def commaJoin : List (List Nat) → List Nat
  | [] => []
  | [x] => x
  | x :: y :: rest => x ++ 44 :: commaJoin (y :: rest)

/-- Modelled from the spec: the SQL literal rendering of each Value kind
(§4.3): NULL, decimal integers/timestamps, floats with NaN/∞ as NULL,
quote-doubled text/JSON, hex blobs with an X prefix, 1/0 booleans, bracketed
vectors, `POINT(lat,lon)` geo points. -/
def sqlLit : Value → List Nat
  | .null => asciiBytes "NULL"
  | .integer i => intBytes i
  | .timestamp t => intBytes t
  | .float bits =>
      if bits / 2 ^ 52 % 2 ^ 11 = 2047 then asciiBytes "NULL" else f64Dec bits
  | .text s => 39 :: dupQuotes s ++ [39]
  | .boolean b => if b then [49] else [48]
  | .blob bs =>
      88 :: 39 :: (bs.map (fun x => [hexDigit (x / 16), hexDigit (x % 16)])).flatten ++ [39]
  | .jsonb j => 39 :: dupQuotes (Json.toBytes j) ++ [39]
  | .vector v => 39 :: 91 :: (commaJoin (v.map f32Dec) ++ [93, 39])
  | .geoPoint lat lon =>
      asciiBytes "POINT(" ++ f64Dec lat ++ 44 :: f64Dec lon ++ [41]

/-- Modelled from the spec: the binder's scanner.  State 0: outside any
string literal (`?` substitutes the next parameter; with the parameter list
exhausted the `?` is copied).  State 1: inside a quoted literal (everything
is copied verbatim).  State 2: directly after a quote seen inside a
literal — a second quote is the `''` escape (still inside), anything else
means the literal was closed there. -/
def bindGo : List Nat → List Value → Nat → List Nat
  | [], _, 2 => [39]
  | [], _, _ => []
  | c :: rest, ps, 0 =>
      if c = 63 then
        match ps with
        | p :: ps2 => sqlLit p ++ bindGo rest ps2 0
        | [] => 63 :: bindGo rest [] 0
      else if c = 39 then 39 :: bindGo rest ps 1
      else c :: bindGo rest ps 0
  | c :: rest, ps, 1 =>
      if c = 39 then bindGo rest ps 2
      else c :: bindGo rest ps 1
  | c :: rest, ps, _ =>
      if c = 39 then 39 :: 39 :: bindGo rest ps 1
      else if c = 63 then
        39 :: (match ps with
          | p :: ps2 => sqlLit p ++ bindGo rest ps2 0
          | [] => 63 :: bindGo rest [] 0)
      else 39 :: c :: bindGo rest ps 0

/-- Modelled from the spec: the safe parameter binder (§4.3). -/
def bind_params (template : List Nat) (params : List Value) : List Nat :=
  bindGo template params 0

/-- Single-quote byte, for building SQL texts without quote characters in
Lean string literals. -/
def sq : List Nat := [39]

/-- Modelled from the spec: the shape of the body of a quoted SQL string
literal.  Every quote byte inside the body occurs as half of a doubled
`''` escape pair, so the body itself never closes the literal. -/
def isQuotedBody : List Nat → Bool
  | [] => true
  | [b] => decide (¬b = 39)
  | b :: c :: rest =>
      if b = 39 then decide (c = 39) && isQuotedBody rest
      else isQuotedBody (c :: rest)

/-- Modelled from the spec: the byte right after a closing quote is not
itself a quote (a quote there would make the pair a `''` escape instead of
a terminator). -/
def headNotQuote : List Nat → Bool
  | [] => true
  | b :: _ => decide (¬b = 39)

/-! ## Descriptive decode failures (C2) -/

/-- The fixed failure messages of the three binary decoders. -/
def descrMsgs : List String :=
  ["unexpected end of binary data", "truncated i64", "truncated f64",
   "truncated text len", "truncated text data", "invalid utf8 in text",
   "truncated blob len", "truncated blob data", "truncated bool",
   "truncated jsonb len", "truncated jsonb data", "invalid utf8 in jsonb",
   "jsonb parse: invalid json", "truncated vec dim", "truncated vec data",
   "truncated timestamp", "truncated geopoint", "binary result too short",
   "vector binary result too short", "vector binary result truncated"]

/-- A decode failure message is descriptive: one of the fixed texts naming
the truncated/invalid field, or the unknown-tag message naming the tag. -/
def DescriptiveMsg (m : String) : Prop :=
  m ∈ descrMsgs ∨ ∃ t : Nat, m = "unknown binary type tag: " ++ Nat.repr t

/-- Shorthand: a decoder result is a value or a descriptive error. -/
def OkOrDescr {α : Type} (r : Except String α) : Prop :=
  (∃ p, r = .ok p) ∨ (∃ m, r = .error m ∧ DescriptiveMsg m)

theorem toLe_length (k n : Nat) : (toLe k n).length = k := by
  induction k generalizing n with
  | zero => rfl
  | succ k ih => simp [toLe, ih]

/-- Splitting a remainder by a product `256 * B` into low byte and rest. -/
theorem mod_mul256 (n B : Nat) (hB : 0 < B) :
    n % (256 * B) = n % 256 + 256 * (n / 256 % B) := by
  conv_lhs => rw [← Nat.div_add_mod n 256, ← Nat.div_add_mod (n / 256) B]
  have key : 256 * (B * (n / 256 / B) + n / 256 % B) + n % 256
      = (256 * (n / 256 % B) + n % 256) + (256 * B) * (n / 256 / B) := by ring
  rw [key, Nat.add_mul_mod_self_left, Nat.mod_eq_of_lt, Nat.add_comm]
  have h1 : n / 256 % B < B := Nat.mod_lt _ hB
  have h2 : n % 256 < 256 := Nat.mod_lt _ (by omega)
  calc 256 * (n / 256 % B) + n % 256 < 256 * (n / 256 % B) + 256 := by omega
    _ ≤ 256 * B := by omega

theorem fromLe_toLe (k n : Nat) : fromLe (toLe k n) = n % 256 ^ k := by
  induction k generalizing n with
  | zero => simp [toLe, fromLe, Nat.mod_one]
  | succ k ih =>
      simp only [toLe, fromLe, ih]
      have hB : 0 < (256 : Nat) ^ k := Nat.pos_pow_of_pos _ (by omega)
      rw [Nat.pow_succ, Nat.mul_comm (256 ^ k) 256, mod_mul256 n (256 ^ k) hB]

theorem fromLe_toLe_of_lt {k n : Nat} (h : n < 256 ^ k) :
    fromLe (toLe k n) = n := by
  rw [fromLe_toLe, Nat.mod_eq_of_lt h]

theorem toLe_lt (k n : Nat) : ∀ b ∈ toLe k n, b < 256 := by
  induction k generalizing n with
  | zero => simp [toLe]
  | succ k ih =>
      intro b hb
      simp only [toLe, List.mem_cons] at hb
      rcases hb with h | h
      · omega
      · exact ih _ _ h

/-- A list of ASCII bytes is valid UTF-8. -/
theorem validUtf8_nil : validUtf8 [] = true := by rw [validUtf8]

theorem validUtf8_ascii {l : List Nat} (h : ∀ b ∈ l, b < 0x80) :
    validUtf8 l = true := by
  induction l with
  | nil => exact validUtf8_nil
  | cons b rest ih =>
      have hb : b < 0x80 := h b (List.mem_cons_self _ _)
      have hc : charLen b = 1 := by simp [charLen, hb]
      rw [validUtf8, hc]
      simp only [Nat.sub_self, List.take_zero, List.drop_zero, if_neg (by omega : ¬(1 : Nat) = 0),
        if_pos (by omega : 1 - 1 ≤ rest.length)]
      simp only [contOk, Bool.true_and]
      exact ih fun x hx => h x (List.mem_cons_of_mem _ hx)

/-- Valid UTF-8 byte sequences concatenate to a valid UTF-8 sequence. -/
theorem validUtf8_append {a : List Nat} (b : List Nat) (ha : validUtf8 a = true)
    (hb : validUtf8 b = true) : validUtf8 (a ++ b) = true := by
  induction a using validUtf8.induct with
  | case1 => simpa using hb
  | case2 x rest h0 =>
      rw [validUtf8, if_pos h0] at ha
      simp at ha
  | case3 x rest h0 h1 ih =>
      rw [validUtf8, if_neg h0, if_pos h1, Bool.and_eq_true] at ha
      rw [List.cons_append, validUtf8, if_neg h0,
        if_pos (by simp only [List.length_append]; omega : charLen x - 1 ≤ (rest ++ b).length)]
      rw [List.take_append_of_le_length h1, List.drop_append_of_le_length h1,
        Bool.and_eq_true]
      exact ⟨ha.1, ih ha.2⟩
  | case4 x rest h0 h1 =>
      rw [validUtf8, if_neg h0, if_neg h1] at ha
      simp at ha

theorem natDigitsAux_lt (f n : Nat) : ∀ d ∈ natDigitsAux f n, d < 10 := by
  induction f generalizing n with
  | zero => simp [natDigitsAux]
  | succ f ih =>
      intro d hd
      rw [natDigitsAux] at hd
      split at hd
      · simp at hd
      · rcases List.mem_cons.mp hd with rfl | h
        · omega
        · exact ih _ _ h

theorem natBytes_digits (n : Nat) : ∀ d ∈ natBytes n, isDigit d = true := by
  intro d hd
  rw [natBytes] at hd
  split at hd
  · simp at hd
    simp [isDigit, hd]
  · simp only [List.mem_map, List.mem_reverse] at hd
    obtain ⟨x, hx, rfl⟩ := hd
    have := natDigitsAux_lt n n x hx
    simp [isDigit]
    omega

theorem natBytes_ne_nil (n : Nat) : natBytes n ≠ [] := by
  rw [natBytes]
  split
  · simp
  · rename_i hn
    rcases n with _ | m
    · simp_all
    · rw [natDigitsAux, if_neg hn]
      simp

/-- Horner-style evaluation of the digit bytes produced by
`natDigitsAux`. -/
theorem digitsVal_aux (f : Nat) : ∀ (n acc : Nat), n ≤ f →
    ((natDigitsAux f n).reverse.map (fun d => d + 48)).foldl
        (fun a b => a * 10 + (b - 48)) acc
      = acc * 10 ^ (natDigitsAux f n).length + n := by
  induction f with
  | zero =>
      intro n acc h
      interval_cases n
      simp [natDigitsAux]
  | succ f ih =>
      intro n acc h
      rcases Nat.eq_zero_or_pos n with rfl | hn
      · simp [natDigitsAux]
      · rw [natDigitsAux, if_neg (by omega)]
        simp only [List.reverse_cons, List.map_append, List.map_cons, List.map_nil,
          List.foldl_append, List.foldl_cons, List.foldl_nil, List.length_cons]
        rw [ih (n / 10) acc (by omega)]
        have hm : n % 10 + 48 - 48 = n % 10 := by omega
        rw [hm, Nat.pow_succ]
        have expand : (acc * 10 ^ (natDigitsAux f (n / 10)).length + n / 10) * 10 + n % 10
            = acc * (10 ^ (natDigitsAux f (n / 10)).length * 10)
              + (10 * (n / 10) + n % 10) := by ring
        rw [expand]
        omega

theorem digitsVal_natBytes (n : Nat) : digitsVal (natBytes n) = n := by
  rw [natBytes, digitsVal]
  split
  · simp_all [digitsVal]
  · rw [digitsVal_aux n n 0 (Nat.le_refl n)]
    simp

theorem span_digits {l rest : List Nat} (hl : ∀ b ∈ l, isDigit b = true)
    (hr : headND rest = true) : (l ++ rest).span isDigit = (l, rest) := by
  induction l with
  | nil =>
      rcases rest with _ | ⟨b, r⟩
      · rfl
      · simp only [headND, Bool.not_eq_true'] at hr
        simp [List.span_eq_take_drop, List.takeWhile_cons, List.dropWhile_cons, hr]
  | cons b l ih =>
      have hb : isDigit b = true := hl b (List.mem_cons_self _ _)
      have := ih (fun x hx => hl x (List.mem_cons_of_mem _ hx))
      simp only [List.span_eq_take_drop] at this ⊢
      simp only [Prod.mk.injEq] at this
      simp [List.cons_append, List.takeWhile_cons, List.dropWhile_cons, hb,
        this.1, this.2]

/-! ## Round-trip: JSON strings -/

theorem hexDigit_ok {x : Nat} (h : x < 16) :
    hexOk (hexDigit x) = true ∧ hexVal (hexDigit x) = x := by
  constructor
  · simp only [hexDigit, hexOk, decide_eq_true_eq]
    split <;> omega
  · simp only [hexDigit, hexVal]
    split
    · rename_i hx
      rw [if_pos (by omega)]
      omega
    · rw [if_neg (by omega), if_neg (by omega)]
      omega

theorem parseStrSt_escape : ∀ (s : List Nat) (f : Nat) (rest : List Nat),
    s.length < f → parseStrSt f (escape s ++ 34 :: rest) = some (s, rest) := by
  intro s
  induction s with
  | nil =>
      intro f rest hf
      rcases f with _ | g
      · omega
      · simp [escape, parseStrSt]
  | cons b s ih =>
      intro f rest hf
      rcases f with _ | g
      · omega
      have hg : s.length < g := by simp at hf; omega
      have hrec := ih g rest hg
      simp only [escape] at hrec
      by_cases h34 : b = 34
      · subst h34
        simp [escape, esc1, parseStrSt, escStep, simpleEsc, hrec]
      by_cases h92 : b = 92
      · subst h92
        simp [escape, esc1, parseStrSt, escStep, simpleEsc, hrec]
      by_cases h8 : b = 8
      · subst h8
        simp [escape, esc1, parseStrSt, escStep, simpleEsc, hrec]
      by_cases h9 : b = 9
      · subst h9
        simp [escape, esc1, parseStrSt, escStep, simpleEsc, hrec]
      by_cases h10 : b = 10
      · subst h10
        simp [escape, esc1, parseStrSt, escStep, simpleEsc, hrec]
      by_cases h12 : b = 12
      · subst h12
        simp [escape, esc1, parseStrSt, escStep, simpleEsc, hrec]
      by_cases h13 : b = 13
      · subst h13
        simp [escape, esc1, parseStrSt, escStep, simpleEsc, hrec]
      by_cases hc : b < 32
      · have hhi := hexDigit_ok (show b / 16 < 16 by omega)
        have hlo := hexDigit_ok (show b % 16 < 16 by omega)
        have hesc : esc1 b = [92, 117, 48, 48, hexDigit (b / 16), hexDigit (b % 16)] := by
          simp [esc1, h34, h92, h8, h9, h10, h12, h13, hc]
        have h48 : hexVal 48 = 0 := rfl
        have hv2 : hexVal (hexDigit (b / 16)) * 16 + hexVal (hexDigit (b % 16)) = b := by
          rw [hhi.2, hlo.2]
          omega
        have hb128 : b < 128 := by omega
        simp only [escape, List.map_cons, List.flatten_cons, hesc, List.cons_append,
          List.append_assoc]
        rw [parseStrSt]
        simp [escStep, readHex4, hhi.1, hlo.1, h48, hv2, hb128, hrec, escape,
          show hexOk 48 = true from by decide]
      · have hesc : esc1 b = [b] := by
          simp [esc1, h34, h92, h8, h9, h10, h12, h13, hc]
        simp only [escape, List.map_cons, List.flatten_cons, hesc, List.cons_append,
          List.singleton_append]
        rw [parseStrSt]
        simp [h34, h92, show ¬b < 32 by omega, hrec, escape]

/-! ## Round-trip: whole JSON values -/

theorem esc1_len_pos (b : Nat) : 1 ≤ (esc1 b).length := by
  rw [esc1]
  repeat' split
  all_goals simp

theorem escape_len (s : List Nat) : s.length ≤ (escape s).length := by
  induction s with
  | nil => simp [escape]
  | cons b s ih =>
      simp only [escape, List.map_cons, List.flatten_cons, List.length_append,
        List.length_cons] at ih ⊢
      have := esc1_len_pos b
      omega

theorem toBytes_ne_nil (j : Json) : Json.toBytes j ≠ [] := by
  cases j with
  | null => simp [Json.toBytes]
  | bool b => cases b <;> simp [Json.toBytes]
  | num n =>
      cases n with
      | ofNat m => simp [Json.toBytes, intBytes, natBytes_ne_nil]
      | negSucc m => simp [Json.toBytes, intBytes]
  | str s => simp [Json.toBytes, strBytes]
  | arr es => simp [Json.toBytes]
  | obj fs => simp [Json.toBytes]

theorem toBytes_len_pos (j : Json) : 1 ≤ (Json.toBytes j).length := by
  have := toBytes_ne_nil j
  cases h : Json.toBytes j with
  | nil => exact absurd h this
  | cons b bs => simp

theorem toBytes_head (j : Json) (b : Nat) (bs : List Nat)
    (h : Json.toBytes j = b :: bs) :
    b = 110 ∨ b = 116 ∨ b = 102 ∨ b = 45 ∨ (48 ≤ b ∧ b ≤ 57) ∨ b = 34 ∨
      b = 91 ∨ b = 123 := by
  cases j with
  | null => simp [Json.toBytes] at h; omega
  | bool c =>
      cases c <;> simp [Json.toBytes] at h <;> omega
  | num n =>
      cases n with
      | ofNat m =>
          simp only [Json.toBytes, intBytes] at h
          have hb : b ∈ natBytes m := by rw [h]; exact List.mem_cons_self _ _
          have := natBytes_digits m b hb
          simp only [isDigit, decide_eq_true_eq] at this
          omega
      | negSucc m =>
          simp only [Json.toBytes, intBytes, List.cons.injEq] at h
          omega
  | str s => simp [Json.toBytes, strBytes] at h; omega
  | arr es => simp [Json.toBytes] at h; omega
  | obj fs => simp [Json.toBytes] at h; omega

theorem arrBytes_singleton (j : Json) : arrBytes [j] = Json.toBytes j := by
  simp [arrBytes]

theorem arrBytes_cons2 (j k : Json) (rest : List Json) :
    arrBytes (j :: k :: rest) = Json.toBytes j ++ 44 :: arrBytes (k :: rest) := by
  simp [arrBytes]

theorem objBytes_singleton (k : List Nat) (v : Json) :
    objBytes [(k, v)] = strBytes k ++ 58 :: Json.toBytes v := by
  simp [objBytes]

theorem objBytes_cons2 (k : List Nat) (v : Json) (kv : List Nat × Json)
    (rest : List (List Nat × Json)) :
    objBytes ((k, v) :: kv :: rest)
      = strBytes k ++ 58 :: Json.toBytes v ++ 44 :: objBytes (kv :: rest) := by
  rcases kv with ⟨k2, v2⟩
  simp [objBytes]

/-- Array-tail round-trip: after a comma, the remaining serialized elements
followed by the closing bracket are re-parsed exactly. -/
theorem aftElem_round : ∀ (ys : List Json), (∀ y ∈ ys, MainP y) → ys ≠ [] →
    ∀ (f : Nat) (rest : List Nat), (arrBytes ys).length + 3 ≤ f →
    afterElem f (44 :: (arrBytes ys ++ 93 :: rest)) = some (ys, rest) := by
  intro ys
  induction ys with
  | nil => intro _ h; exact absurd rfl h
  | cons y ys ihys =>
      intro hm _ f rest hf
      rcases f with _ | h
      · omega
      rw [afterElem, if_pos rfl]
      rcases ys with _ | ⟨z, r2⟩
      · rw [arrBytes_singleton] at hf ⊢
        rw [hm y (List.mem_cons_self _ _) h (93 :: rest) (by omega) rfl]
        simp only [Option.some_bind]
        rcases h with _ | h2
        · omega
        rw [afterElem, if_neg (by omega), if_pos rfl]
        rfl
      · rw [arrBytes_cons2] at hf ⊢
        have h1 := toBytes_len_pos y
        simp only [List.length_append, List.length_cons] at hf
        rw [List.append_assoc, List.cons_append]
        rw [hm y (List.mem_cons_self _ _) h (44 :: (arrBytes (z :: r2) ++ 93 :: rest))
          (by omega) rfl]
        simp only [Option.some_bind]
        rw [ihys (fun w hw => hm w (List.mem_cons_of_mem _ hw))
          (List.cons_ne_nil _ _) h rest (by omega)]
        rfl

/-- Array-body round-trip: the serialized nonempty element list followed by
`]` is re-parsed exactly. -/
theorem elems_round : ∀ (ys : List Json), (∀ y ∈ ys, MainP y) → ys ≠ [] →
    ∀ (f : Nat) (rest : List Nat), (arrBytes ys).length + 2 ≤ f →
    parseElems f (arrBytes ys ++ 93 :: rest) = some (Json.arr ys, rest) := by
  intro ys hm hne f rest hf
  rcases ys with _ | ⟨x, xs⟩
  · exact absurd rfl hne
  rcases f with _ | h
  · omega
  rcases hxb : Json.toBytes x with _ | ⟨b, bs⟩
  · exact absurd hxb (toBytes_ne_nil x)
  have hb93 : ¬b = 93 := by
    have := toBytes_head x b bs hxb
    omega
  rcases xs with _ | ⟨z, r2⟩
  · rw [arrBytes_singleton] at hf ⊢
    rw [hxb, List.cons_append, parseElems, if_neg hb93, ← List.cons_append, ← hxb]
    rw [hm x (List.mem_cons_self _ _) h (93 :: rest) (by omega) rfl]
    simp only [Option.some_bind]
    rcases h with _ | h2
    · omega
    rw [afterElem, if_neg (by omega), if_pos rfl]
    rfl
  · rw [arrBytes_cons2] at hf ⊢
    have h1 := toBytes_len_pos x
    simp only [List.length_append, List.length_cons] at hf
    rw [hxb, List.cons_append, List.cons_append, parseElems, if_neg hb93,
      ← List.cons_append, ← List.cons_append, ← hxb, List.append_assoc,
      List.cons_append]
    rw [hm x (List.mem_cons_self _ _) h (44 :: (arrBytes (z :: r2) ++ 93 :: rest))
      (by omega) rfl]
    simp only [Option.some_bind]
    rw [aftElem_round (z :: r2) (fun w hw => hm w (List.mem_cons_of_mem _ hw))
      (List.cons_ne_nil _ _) h rest (by omega)]
    rfl

/-- Object-tail round-trip: after a comma, the remaining serialized fields
followed by the closing brace are re-parsed exactly. -/
theorem aftField_round : ∀ (gs : List (List Nat × Json)),
    (∀ kv ∈ gs, MainP kv.2) → gs ≠ [] →
    ∀ (f : Nat) (rest : List Nat), (objBytes gs).length + 3 ≤ f →
    afterField f (44 :: (objBytes gs ++ 125 :: rest)) = some (gs, rest) := by
  intro gs
  induction gs with
  | nil => intro _ h; exact absurd rfl h
  | cons kv gs ihgs =>
      rcases kv with ⟨k2, v2⟩
      intro hm _ f rest hf
      rcases f with _ | h
      · omega
      rw [afterField, if_pos rfl]
      have hkl := escape_len k2
      have hvp := toBytes_len_pos v2
      rcases gs with _ | ⟨kv3, gs2⟩
      · rw [objBytes_singleton] at hf ⊢
        simp only [strBytes, List.length_append, List.length_cons,
          List.cons_append, List.append_assoc, List.singleton_append,
          List.nil_append] at hf ⊢
        simp only [expectByte, if_pos rfl, if_true, List.nil_append, Option.some_bind]
        rw [parseStrSt_escape k2 h (58 :: (Json.toBytes v2 ++ 125 :: rest)) (by omega)]
        simp only [Option.some_bind, expectByte, if_pos rfl, if_true, List.nil_append]
        rw [hm (k2, v2) (List.mem_cons_self _ _) h (125 :: rest)
          (show (Json.toBytes v2).length < h by omega) rfl]
        simp only [Option.some_bind]
        rcases h with _ | h2
        · omega
        rw [afterField, if_neg (by omega), if_pos rfl]
        rfl
      · rw [objBytes_cons2] at hf ⊢
        simp only [strBytes, List.length_append, List.length_cons,
          List.cons_append, List.append_assoc, List.singleton_append,
          List.nil_append] at hf ⊢
        simp only [expectByte, if_pos rfl, if_true, List.nil_append, Option.some_bind]
        rw [parseStrSt_escape k2 h
          (58 :: (Json.toBytes v2 ++ 44 :: (objBytes (kv3 :: gs2) ++ 125 :: rest)))
          (by omega)]
        simp only [Option.some_bind, expectByte, if_pos rfl, if_true, List.nil_append]
        rw [hm (k2, v2) (List.mem_cons_self _ _) h
          (44 :: (objBytes (kv3 :: gs2) ++ 125 :: rest))
          (show (Json.toBytes v2).length < h by omega) rfl]
        simp only [Option.some_bind]
        rw [ihgs (fun w hw => hm w (List.mem_cons_of_mem _ hw))
          (List.cons_ne_nil _ _) h rest (by omega)]
        rfl

/-- Object-body round-trip: the serialized nonempty field list followed by
a closing brace is re-parsed exactly. -/
theorem fields_round : ∀ (gs : List (List Nat × Json)),
    (∀ kv ∈ gs, MainP kv.2) → gs ≠ [] →
    ∀ (f : Nat) (rest : List Nat), (objBytes gs).length + 2 ≤ f →
    parseFields f (objBytes gs ++ 125 :: rest) = some (Json.obj gs, rest) := by
  intro gs hm hne f rest hf
  rcases gs with _ | ⟨⟨k, v⟩, gs'⟩
  · exact absurd rfl hne
  rcases f with _ | h
  · omega
  have hkl := escape_len k
  have hvp := toBytes_len_pos v
  rcases gs' with _ | ⟨kv2, gs2⟩
  · rw [objBytes_singleton] at hf ⊢
    simp only [strBytes, List.length_append, List.length_cons,
      List.cons_append, List.append_assoc, List.singleton_append,
      List.nil_append] at hf ⊢
    rw [parseFields, if_neg (by omega), if_pos rfl]
    rw [parseStrSt_escape k h (58 :: (Json.toBytes v ++ 125 :: rest)) (by omega)]
    simp only [Option.some_bind, expectByte, if_pos rfl, if_true, List.nil_append]
    rw [hm (k, v) (List.mem_cons_self _ _) h (125 :: rest)
      (show (Json.toBytes v).length < h by omega) rfl]
    simp only [Option.some_bind]
    rcases h with _ | h2
    · omega
    rw [afterField, if_neg (by omega), if_pos rfl]
    rfl
  · rw [objBytes_cons2] at hf ⊢
    simp only [strBytes, List.length_append, List.length_cons,
      List.cons_append, List.append_assoc, List.singleton_append,
      List.nil_append] at hf ⊢
    rw [parseFields, if_neg (by omega), if_pos rfl]
    rw [parseStrSt_escape k h
      (58 :: (Json.toBytes v ++ 44 :: (objBytes (kv2 :: gs2) ++ 125 :: rest)))
      (by omega)]
    simp only [Option.some_bind, expectByte, if_pos rfl, if_true, List.nil_append]
    rw [hm (k, v) (List.mem_cons_self _ _) h
      (44 :: (objBytes (kv2 :: gs2) ++ 125 :: rest))
      (show (Json.toBytes v).length < h by omega) rfl]
    simp only [Option.some_bind]
    rw [aftField_round (kv2 :: gs2) (fun w hw => hm w (List.mem_cons_of_mem _ hw))
      (List.cons_ne_nil _ _) h rest (by omega)]
    rfl

/-- Parser/serializer inversion, strong-induction core. -/
theorem parseVal_round_aux : ∀ (N : Nat) (j : Json), sizeOf j < N → MainP j := by
  intro N
  induction N with
  | zero => intro j h; exact absurd h (by omega)
  | succ N IH =>
      intro j hsz f rest hf hnd
      cases j with
      | null =>
          simp only [Json.toBytes] at hf ⊢
          rcases f with _ | g
          · simp at hf
          rw [List.cons_append, parseVal]
          simp [expectByte]
      | bool c =>
          cases c <;>
            (simp only [Json.toBytes] at hf ⊢
             rcases f with _ | g
             · simp at hf
             rw [List.cons_append, parseVal]
             simp [expectByte])
      | num n =>
          cases n with
          | ofNat m =>
              simp only [Json.toBytes, intBytes] at hf ⊢
              rcases f with _ | g
              · omega
              rcases hnb : natBytes m with _ | ⟨d, ds⟩
              · exact absurd hnb (natBytes_ne_nil m)
              have hdig : ∀ x ∈ natBytes m, isDigit x = true := natBytes_digits m
              have hd : 48 ≤ d ∧ d ≤ 57 := by
                have := hdig d (by rw [hnb]; exact List.mem_cons_self _ _)
                simpa [isDigit] using this
              have hspan : ((d :: ds) ++ rest).span isDigit = (d :: ds, rest) := by
                rw [← hnb]
                exact span_digits hdig hnd
              have hdne : ∀ k : Nat, ¬(48 ≤ k ∧ k ≤ 57) → ¬d = k := by omega
              rw [List.cons_append, parseVal]
              rw [if_neg (hdne 110 (by norm_num)), if_neg (hdne 116 (by norm_num)),
                if_neg (hdne 102 (by norm_num)), if_neg (hdne 34 (by norm_num)),
                if_neg (hdne 91 (by norm_num)), if_neg (hdne 123 (by norm_num)),
                if_neg (hdne 45 (by norm_num)), if_pos (by simp [isDigit]; omega)]
              simp only [← List.cons_append, hspan]
              have hval : digitsVal (d :: ds) = m := by
                rw [← hnb]; exact digitsVal_natBytes m
              simp [hval]
          | negSucc m =>
              simp only [Json.toBytes, intBytes] at hf ⊢
              rcases f with _ | g
              · omega
              rw [List.cons_append, parseVal]
              rw [if_neg (by decide), if_neg (by omega), if_neg (by decide),
                if_neg (by omega), if_neg (by decide), if_neg (by omega),
                if_pos rfl]
              have hspan : (natBytes (m + 1) ++ rest).span isDigit
                  = (natBytes (m + 1), rest) :=
                span_digits (natBytes_digits (m + 1)) hnd
              simp only [hspan]
              rw [if_neg (by simp [natBytes_ne_nil])]
              have hval : digitsVal (natBytes (m + 1)) = m + 1 :=
                digitsVal_natBytes (m + 1)
              simp only [hval]
              have h2 : -((m + 1 : Nat) : Int) = Int.negSucc m := by
                rw [Int.negSucc_eq]
                push_cast
                ring
              rw [h2]
      | str s =>
          simp only [Json.toBytes, strBytes] at hf ⊢
          rcases f with _ | g
          · omega
          have hel := escape_len s
          simp only [List.length_cons, List.length_append] at hf
          rw [List.cons_append, parseVal.eq_def]
          simp [parseStrSt_escape s g rest (by omega)]
      | arr es =>
          rcases es with _ | ⟨x, xs⟩
          · simp only [Json.toBytes, arrBytes] at hf ⊢
            rcases f with _ | g
            · omega
            simp only [List.append_assoc, List.singleton_append] at hf ⊢
            rcases g with _ | h
            · simp at hf
            rw [parseVal.eq_def]
            simp [parseElems]
          · have hmem : ∀ y ∈ x :: xs, MainP y := by
              intro y hy
              refine IH y ?_
              have h1 := List.sizeOf_lt_of_mem hy
              simp only [Json.arr.sizeOf_spec] at hsz
              omega
            simp only [Json.toBytes] at hf ⊢
            rcases f with _ | g
            · omega
            simp only [List.length_cons, List.length_append] at hf
            have helems := elems_round (x :: xs) hmem (List.cons_ne_nil _ _) g rest
              (by omega)
            rw [List.cons_append, parseVal.eq_def]
            simp [List.append_assoc, helems]
      | obj fs =>
          rcases fs with _ | ⟨⟨k, v⟩, fs'⟩
          · simp only [Json.toBytes, objBytes] at hf ⊢
            rcases f with _ | g
            · omega
            simp only [List.append_assoc, List.singleton_append] at hf ⊢
            rcases g with _ | h
            · simp at hf
            rw [parseVal.eq_def]
            simp [parseFields]
          · have hmem : ∀ kv ∈ (k, v) :: fs', MainP kv.2 := by
              intro kv hkv
              refine IH kv.2 ?_
              have h1 := List.sizeOf_lt_of_mem hkv
              rcases kv with ⟨k2, v2⟩
              simp only [Json.obj.sizeOf_spec, Prod.mk.sizeOf_spec] at hsz h1 ⊢
              omega
            simp only [Json.toBytes] at hf ⊢
            rcases f with _ | g
            · omega
            simp only [List.length_cons, List.length_append] at hf
            have hfields := fields_round ((k, v) :: fs') hmem (List.cons_ne_nil _ _)
              g rest (by omega)
            rw [List.cons_append, parseVal.eq_def]
            simp [List.append_assoc, hfields]

/-- Parser/serializer inversion for every JSON value. -/
theorem parseVal_round (j : Json) : MainP j :=
  parseVal_round_aux (sizeOf j + 1) j (by omega)

/-- `from_str ∘ to_string = id` in the model. -/
theorem parse_toBytes (j : Json) : Json.parse (Json.toBytes j) = some j := by
  rw [Json.parse]
  have := parseVal_round j ((Json.toBytes j).length + 1) [] (by omega) rfl
  rw [List.append_nil] at this
  rw [this]
  rfl

/-! ## Round-trip of the TLV codec -/

theorem take_app {X rest : List Nat} {k : Nat} (h : X.length = k) :
    (X ++ rest).take k = X := by
  subst h
  exact List.take_left X rest

theorem drop_app {X rest : List Nat} {k : Nat} (h : X.length = k) :
    (X ++ rest).drop k = rest := by
  subst h
  exact List.drop_left X rest

theorem i64Bytes_length (i : Int) : (i64Bytes i).length = 8 := by
  rw [i64Bytes]; exact toLe_length 8 _

theorem pow256_4 : (256 : Nat) ^ 4 = 2 ^ 32 := by norm_num

theorem pow256_8 : (256 : Nat) ^ 8 = 2 ^ 64 := by norm_num

/-- Two's-complement i64 encode/decode inversion on the i64 range. -/
theorem decI64_i64Bytes {i : Int} (h1 : -(2 ^ 63 : Int) ≤ i) (h2 : i < 2 ^ 63) :
    decI64 (i64Bytes i) = i := by
  rw [i64Bytes, decI64]
  by_cases hpos : 0 ≤ i
  · rw [if_pos hpos, fromLe_toLe_of_lt (by rw [pow256_8]; omega)]
    rw [if_pos (by omega)]
    omega
  · rw [if_neg hpos, fromLe_toLe_of_lt (by rw [pow256_8]; omega)]
    rw [if_neg (by omega)]
    omega

theorem flatten_toLe4_length (v : List Nat) :
    ((v.map (toLe 4)).flatten).length = 4 * v.length := by
  induction v with
  | nil => simp
  | cons x v ih =>
      rw [List.map_cons, List.flatten_cons, List.length_append, toLe_length, ih,
        List.length_cons]
      ring

/-- The f32 reading loop undoes the f32 writing loop. -/
theorem readF32s_flat : ∀ (v : List Nat) (rest : List Nat), (∀ x ∈ v, x < 2 ^ 32) →
    readF32s v.length ((v.map (toLe 4)).flatten ++ rest) = v := by
  intro v
  induction v with
  | nil => intro rest _; rfl
  | cons x v ih =>
      intro rest hx
      simp only [List.map_cons, List.flatten_cons, List.length_cons, List.append_assoc]
      rw [readF32s]
      rw [take_app (toLe_length 4 x), drop_app (toLe_length 4 x)]
      rw [fromLe_toLe_of_lt (by rw [pow256_4]; exact hx x (List.mem_cons_self _ _))]
      rw [ih rest (fun y hy => hx y (List.mem_cons_of_mem _ hy))]

theorem encode_length (v : Value) : (encode_value v).length = 1 + payloadSize v := by
  cases v with
  | null => rfl
  | integer i => simp [encode_value, payloadSize, i64Bytes_length]
  | float bits => simp [encode_value, payloadSize, toLe_length]
  | text s => simp [encode_value, payloadSize, toLe_length]; omega
  | blob b => simp [encode_value, payloadSize, toLe_length]; omega
  | boolean b => rfl
  | jsonb j => simp [encode_value, payloadSize, toLe_length]; omega
  | vector v =>
      simp only [encode_value, payloadSize, List.length_cons, List.length_append,
        toLe_length, flatten_toLe4_length]
      omega
  | timestamp t => simp [encode_value, payloadSize, i64Bytes_length]
  | geoPoint lat lon => simp [encode_value, payloadSize, toLe_length]

/-- Per-value TLV inversion: decoding the encoding of a well-formed value,
followed by any remaining stream, yields the value back and consumes
exactly its encoded length. -/
theorem decodeV_encode (v : Value) (hw : ValueWF v = true) (rem : List Nat) :
    decodeV (encode_value v ++ rem) = .ok (v, (encode_value v).length) := by
  cases v with
  | null => simp [encode_value, decodeV]
  | integer i =>
      simp only [ValueWF, decide_eq_true_eq] at hw
      simp only [encode_value, List.cons_append]
      rw [decodeV]
      rw [if_neg (by decide), if_pos rfl]
      rw [if_neg (by simp [List.length_append, i64Bytes_length])]
      rw [take_app (i64Bytes_length i), decI64_i64Bytes hw.1 hw.2]
      simp [List.length_cons, i64Bytes_length]
  | float bits =>
      simp only [ValueWF, decide_eq_true_eq] at hw
      simp only [encode_value, List.cons_append]
      rw [decodeV]
      rw [if_neg (by decide), if_neg (by omega), if_pos rfl]
      rw [if_neg (by simp [List.length_append, toLe_length])]
      rw [take_app (toLe_length 8 bits)]
      rw [fromLe_toLe_of_lt (by rw [pow256_8]; exact hw)]
      simp [toLe_length]
  | text s =>
      simp only [ValueWF, Bool.and_eq_true, decide_eq_true_eq] at hw
      simp only [encode_value, List.cons_append, List.append_assoc]
      rw [decodeV]
      rw [if_neg (by decide), if_neg (by omega), if_neg (by decide), if_pos rfl]
      rw [if_neg (by simp [List.length_append, toLe_length])]
      rw [take_app (toLe_length 4 s.length), drop_app (toLe_length 4 s.length)]
      rw [fromLe_toLe_of_lt (by rw [pow256_4]; exact hw.2)]
      rw [if_neg (by simp), take_app rfl, if_pos hw.1]
      simp [toLe_length]
      omega
  | blob b =>
      simp only [ValueWF, Bool.and_eq_true, decide_eq_true_eq] at hw
      simp only [encode_value, List.cons_append, List.append_assoc]
      rw [decodeV]
      rw [if_neg (by decide), if_neg (by omega), if_neg (by decide), if_neg (by omega),
        if_pos rfl]
      rw [if_neg (by simp [List.length_append, toLe_length])]
      rw [take_app (toLe_length 4 b.length), drop_app (toLe_length 4 b.length)]
      rw [fromLe_toLe_of_lt (by rw [pow256_4]; exact hw.2)]
      rw [if_neg (by simp), take_app rfl]
      simp [toLe_length]
      omega
  | boolean b =>
      cases b <;> simp [encode_value, decodeV]
  | jsonb j =>
      simp only [ValueWF, Bool.and_eq_true, decide_eq_true_eq] at hw
      simp only [encode_value, List.cons_append, List.append_assoc]
      rw [decodeV]
      rw [if_neg (by decide), if_neg (by omega), if_neg (by decide), if_neg (by omega),
        if_neg (by decide), if_neg (by omega), if_pos rfl]
      rw [if_neg (by simp [List.length_append, toLe_length])]
      rw [take_app (toLe_length 4 (Json.toBytes j).length),
        drop_app (toLe_length 4 (Json.toBytes j).length)]
      rw [fromLe_toLe_of_lt (by rw [pow256_4]; exact hw.2)]
      rw [if_neg (by simp), take_app rfl, if_pos hw.1]
      rw [parse_toBytes]
      simp [toLe_length]
      omega
  | vector v =>
      simp only [ValueWF, Bool.and_eq_true, decide_eq_true_eq, List.all_eq_true] at hw
      simp only [encode_value, List.cons_append, List.append_assoc]
      rw [decodeV]
      rw [if_neg (by decide), if_neg (by omega), if_neg (by decide), if_neg (by omega),
        if_neg (by decide), if_neg (by omega), if_neg (by decide), if_pos rfl]
      rw [if_neg (by simp [List.length_append, toLe_length])]
      rw [take_app (toLe_length 4 v.length), drop_app (toLe_length 4 v.length)]
      rw [fromLe_toLe_of_lt (by rw [pow256_4]; exact hw.2)]
      rw [if_neg (by
        simp only [List.length_append, flatten_toLe4_length, Nat.not_lt]
        omega)]
      rw [readF32s_flat v rem (fun x hx => hw.1 x hx)]
      have hlen : (7 :: (toLe 4 v.length ++ (v.map (toLe 4)).flatten)).length
          = 5 + v.length * 4 := by
        simp only [List.length_cons, List.length_append, toLe_length,
          flatten_toLe4_length]
        omega
      rw [hlen]
  | timestamp t =>
      simp only [ValueWF, decide_eq_true_eq] at hw
      simp only [encode_value, List.cons_append]
      rw [decodeV]
      rw [if_neg (by decide), if_neg (by omega), if_neg (by decide), if_neg (by omega),
        if_neg (by decide), if_neg (by omega), if_neg (by decide), if_neg (by omega),
        if_pos rfl]
      rw [if_neg (by simp [List.length_append, i64Bytes_length])]
      rw [take_app (i64Bytes_length t), decI64_i64Bytes hw.1 hw.2]
      simp [i64Bytes_length]
  | geoPoint lat lon =>
      simp only [ValueWF, decide_eq_true_eq] at hw
      simp only [encode_value, List.cons_append, List.append_assoc]
      rw [decodeV]
      rw [if_neg (by decide), if_neg (by omega), if_neg (by decide), if_neg (by omega),
        if_neg (by decide), if_neg (by omega), if_neg (by decide), if_neg (by omega),
        if_neg (by decide), if_pos rfl]
      rw [if_neg (by simp [List.length_append, toLe_length]; omega)]
      rw [take_app (toLe_length 8 lat), drop_app (toLe_length 8 lat), take_app (toLe_length 8 lon)]
      rw [fromLe_toLe_of_lt (by rw [pow256_8]; exact hw.1),
        fromLe_toLe_of_lt (by rw [pow256_8]; exact hw.2)]
      simp [toLe_length]

/-- The cell loop of `decode_rows_bin` undoes the concatenated cell
encodings, advancing the cursor by each cell's consumed length. -/
theorem decodeCells_encode : ∀ (cells : List Value),
    (∀ c ∈ cells, ValueWF c = true) →
    ∀ (data : List Nat) (pos : Nat) (rest : List Nat),
    data.drop pos = cellsBytes cells ++ rest →
    decodeCells data pos cells.length
      = .ok (cells, pos + (cellsBytes cells).length) := by
  intro cells
  induction cells with
  | nil =>
      intro _ data pos rest h
      simp [decodeCells, cellsBytes]
  | cons c cs ih =>
      intro hwf data pos rest h
      rw [List.length_cons, decodeCells]
      have hdrop : data.drop pos = encode_value c ++ (cellsBytes cs ++ rest) := by
        rw [h]
        simp [cellsBytes]
      rw [decode_value, hdrop,
        decodeV_encode c (hwf c (List.mem_cons_self _ _)) (cellsBytes cs ++ rest)]
      simp only [Except.bind]
      have hdrop2 : data.drop (pos + (encode_value c).length) = cellsBytes cs ++ rest := by
        rw [← List.drop_drop, hdrop, drop_app rfl]
      rw [ih (fun x hx => hwf x (List.mem_cons_of_mem _ hx)) data
        (pos + (encode_value c).length) rest hdrop2]
      simp only [Except.map]
      have : (cellsBytes (c :: cs)).length
          = (encode_value c).length + (cellsBytes cs).length := by
        simp [cellsBytes]
      rw [this]
      ring_nf

/-- The row loop of `decode_rows_bin` undoes the row-major stream. -/
theorem decodeRows_encode : ∀ (rows : List (List Value)) (cols : Nat),
    (∀ r ∈ rows, r.length = cols) →
    (∀ r ∈ rows, ∀ c ∈ r, ValueWF c = true) →
    ∀ (data : List Nat) (pos : Nat) (rest : List Nat),
    data.drop pos = rowsBytes rows ++ rest →
    decodeRows data cols pos rows.length
      = .ok (rows, pos + (rowsBytes rows).length) := by
  intro rows
  induction rows with
  | nil =>
      intro cols _ _ data pos rest h
      simp [decodeRows, rowsBytes]
  | cons r rs ih =>
      intro cols hcols hwf data pos rest h
      rw [List.length_cons, decodeRows]
      have hdrop : data.drop pos = cellsBytes r ++ (rowsBytes rs ++ rest) := by
        rw [h]
        simp [rowsBytes]
      rw [← hcols r (List.mem_cons_self _ _)]
      rw [decodeCells_encode r (hwf r (List.mem_cons_self _ _)) data pos
        (rowsBytes rs ++ rest) hdrop]
      simp only [Except.bind]
      have hdrop2 : data.drop (pos + (cellsBytes r).length) = rowsBytes rs ++ rest := by
        rw [← List.drop_drop, hdrop, drop_app rfl]
      rw [hcols r (List.mem_cons_self _ _)]
      rw [ih cols (fun x hx => hcols x (List.mem_cons_of_mem _ hx))
        (fun x hx => hwf x (List.mem_cons_of_mem _ hx)) data
        (pos + (cellsBytes r).length) rest hdrop2]
      simp only [Except.map]
      have : (rowsBytes (r :: rs)).length
          = (cellsBytes r).length + (rowsBytes rs).length := by
        simp [rowsBytes]
      rw [this]
      ring_nf

/-- The hit-entry loop of `decode_vector_bin` undoes the 12-byte entry
encodings. -/
theorem readHits_encode : ∀ (hits : List (Nat × Nat)) (rest : List Nat),
    (∀ p ∈ hits, p.1 < 2 ^ 64 ∧ p.2 < 2 ^ 32) →
    readHits hits.length
        ((hits.map (fun p => toLe 8 p.1 ++ toLe 4 p.2)).flatten ++ rest)
      = hits := by
  intro hits
  induction hits with
  | nil => intro rest _; rfl
  | cons p ps ih =>
      intro rest hw
      rcases p with ⟨i, d⟩
      have hp := hw (i, d) (List.mem_cons_self _ _)
      simp only [List.map_cons, List.flatten_cons, List.length_cons,
        List.append_assoc]
      rw [readHits]
      have h12 : (toLe 8 i ++ (toLe 4 d
            ++ ((ps.map (fun p => toLe 8 p.1 ++ toLe 4 p.2)).flatten ++ rest))).drop 12
          = (ps.map (fun p => toLe 8 p.1 ++ toLe 4 p.2)).flatten ++ rest := by
        rw [show (12 : Nat) = 8 + 4 from rfl, ← List.drop_drop,
          drop_app (toLe_length 8 i), drop_app (toLe_length 4 d)]
      rw [h12, take_app (toLe_length 8 i), drop_app (toLe_length 8 i),
        take_app (toLe_length 4 d)]
      rw [fromLe_toLe_of_lt (by rw [pow256_8]; exact hp.1),
        fromLe_toLe_of_lt (by rw [pow256_4]; exact hp.2)]
      rw [ih rest (fun q hq => hw q (List.mem_cons_of_mem _ hq))]

theorem decodeV_total (bs : List Nat) : OkOrDescr (decodeV bs) := by
  rcases bs with _ | ⟨tag, rest⟩
  · right
    exact ⟨_, rfl, Or.inl (by simp [descrMsgs])⟩
  rw [decodeV]
  by_cases h0 : tag = 0
  · rw [if_pos h0]; left; exact ⟨_, rfl⟩
  rw [if_neg h0]
  by_cases h1 : tag = 1
  · rw [if_pos h1]
    by_cases hl : rest.length < 8
    · rw [if_pos hl]; right; exact ⟨_, rfl, Or.inl (by simp [descrMsgs])⟩
    · rw [if_neg hl]; left; exact ⟨_, rfl⟩
  rw [if_neg h1]
  by_cases h2 : tag = 2
  · rw [if_pos h2]
    by_cases hl : rest.length < 8
    · rw [if_pos hl]; right; exact ⟨_, rfl, Or.inl (by simp [descrMsgs])⟩
    · rw [if_neg hl]; left; exact ⟨_, rfl⟩
  rw [if_neg h2]
  by_cases h3 : tag = 3
  · rw [if_pos h3]
    by_cases hl : rest.length < 4
    · rw [if_pos hl]; right; exact ⟨_, rfl, Or.inl (by simp [descrMsgs])⟩
    rw [if_neg hl]
    by_cases hd : (rest.drop 4).length < fromLe (rest.take 4)
    · rw [if_pos hd]; right; exact ⟨_, rfl, Or.inl (by simp [descrMsgs])⟩
    rw [if_neg hd]
    by_cases hu : validUtf8 ((rest.drop 4).take (fromLe (rest.take 4))) = true
    · rw [if_pos hu]; left; exact ⟨_, rfl⟩
    · rw [if_neg hu]; right; exact ⟨_, rfl, Or.inl (by simp [descrMsgs])⟩
  rw [if_neg h3]
  by_cases h4 : tag = 4
  · rw [if_pos h4]
    by_cases hl : rest.length < 4
    · rw [if_pos hl]; right; exact ⟨_, rfl, Or.inl (by simp [descrMsgs])⟩
    rw [if_neg hl]
    by_cases hd : (rest.drop 4).length < fromLe (rest.take 4)
    · rw [if_pos hd]; right; exact ⟨_, rfl, Or.inl (by simp [descrMsgs])⟩
    · rw [if_neg hd]; left; exact ⟨_, rfl⟩
  rw [if_neg h4]
  by_cases h5 : tag = 5
  · rw [if_pos h5]
    by_cases hl : rest.isEmpty = true
    · rw [if_pos hl]; right; exact ⟨_, rfl, Or.inl (by simp [descrMsgs])⟩
    · rw [if_neg hl]; left; exact ⟨_, rfl⟩
  rw [if_neg h5]
  by_cases h6 : tag = 6
  · rw [if_pos h6]
    by_cases hl : rest.length < 4
    · rw [if_pos hl]; right; exact ⟨_, rfl, Or.inl (by simp [descrMsgs])⟩
    rw [if_neg hl]
    by_cases hd : (rest.drop 4).length < fromLe (rest.take 4)
    · rw [if_pos hd]; right; exact ⟨_, rfl, Or.inl (by simp [descrMsgs])⟩
    rw [if_neg hd]
    by_cases hu : validUtf8 ((rest.drop 4).take (fromLe (rest.take 4))) = true
    · rw [if_pos hu]
      rcases Json.parse ((rest.drop 4).take (fromLe (rest.take 4))) with _ | j
      · right; exact ⟨_, rfl, Or.inl (by simp [descrMsgs])⟩
      · left; exact ⟨_, rfl⟩
    · rw [if_neg hu]; right; exact ⟨_, rfl, Or.inl (by simp [descrMsgs])⟩
  rw [if_neg h6]
  by_cases h7 : tag = 7
  · rw [if_pos h7]
    by_cases hl : rest.length < 4
    · rw [if_pos hl]; right; exact ⟨_, rfl, Or.inl (by simp [descrMsgs])⟩
    rw [if_neg hl]
    by_cases hd : (rest.drop 4).length < fromLe (rest.take 4) * 4
    · rw [if_pos hd]; right; exact ⟨_, rfl, Or.inl (by simp [descrMsgs])⟩
    · rw [if_neg hd]; left; exact ⟨_, rfl⟩
  rw [if_neg h7]
  by_cases h8 : tag = 8
  · rw [if_pos h8]
    by_cases hl : rest.length < 8
    · rw [if_pos hl]; right; exact ⟨_, rfl, Or.inl (by simp [descrMsgs])⟩
    · rw [if_neg hl]; left; exact ⟨_, rfl⟩
  rw [if_neg h8]
  by_cases h9 : tag = 9
  · rw [if_pos h9]
    by_cases hl : rest.length < 16
    · rw [if_pos hl]; right; exact ⟨_, rfl, Or.inl (by simp [descrMsgs])⟩
    · rw [if_neg hl]; left; exact ⟨_, rfl⟩
  rw [if_neg h9]
  right
  exact ⟨_, rfl, Or.inr ⟨tag, rfl⟩⟩

theorem decode_value_total (data : List Nat) (pos : Nat) :
    OkOrDescr (decode_value data pos) := by
  rw [decode_value]
  exact decodeV_total _

theorem decodeCells_total (data : List Nat) :
    ∀ (n : Nat) (pos : Nat), OkOrDescr (decodeCells data pos n) := by
  intro n
  induction n with
  | zero => intro pos; left; exact ⟨_, rfl⟩
  | succ n ih =>
      intro pos
      rw [decodeCells]
      rcases decode_value_total data pos with ⟨p, hp⟩ | ⟨m, hm, hd⟩
      · rw [hp]
        simp only [Except.bind]
        rcases ih (pos + p.2) with ⟨q, hq⟩ | ⟨m, hm, hd⟩
        · rw [hq]; left; exact ⟨_, rfl⟩
        · rw [hm]; right; exact ⟨_, rfl, hd⟩
      · rw [hm]
        right
        exact ⟨_, rfl, hd⟩

theorem decodeRows_total (data : List Nat) (cols : Nat) :
    ∀ (r : Nat) (pos : Nat), OkOrDescr (decodeRows data cols pos r) := by
  intro r
  induction r with
  | zero => intro pos; left; exact ⟨_, rfl⟩
  | succ r ih =>
      intro pos
      rw [decodeRows]
      rcases decodeCells_total data cols pos with ⟨p, hp⟩ | ⟨m, hm, hd⟩
      · rw [hp]
        simp only [Except.bind]
        rcases ih p.2 with ⟨q, hq⟩ | ⟨m, hm, hd⟩
        · rw [hq]; left; exact ⟨_, rfl⟩
        · rw [hm]; right; exact ⟨_, rfl, hd⟩
      · rw [hm]
        right
        exact ⟨_, rfl, hd⟩

theorem decode_rows_bin_total (data : List Nat) : OkOrDescr (decode_rows_bin data) := by
  rw [decode_rows_bin]
  split_ifs
  · right
    exact ⟨_, rfl, Or.inl (by simp [descrMsgs])⟩
  · rcases decodeRows_total data (fromLe ((data.drop 4).take 4)) (fromLe (data.take 4)) 8
      with ⟨p, hp⟩ | ⟨m, hm, hd⟩
    · rw [hp]; left; exact ⟨_, rfl⟩
    · rw [hm]; right; exact ⟨_, rfl, hd⟩

theorem decode_vector_bin_total (data : List Nat) : OkOrDescr (decode_vector_bin data) := by
  rw [decode_vector_bin]
  split_ifs
  · right; exact ⟨_, rfl, Or.inl (by simp [descrMsgs])⟩
  · right; exact ⟨_, rfl, Or.inl (by simp [descrMsgs])⟩
  · left; exact ⟨_, rfl⟩

/-! ## The claims -/

/-- C1: for every well-formed Value (every variant: empty or multi-byte
text, empty blob, zero-length vector, NaN/∞ float bit patterns, negative
integers, nested JSON, boundary geo points), decoding the bytes produced by
`encode_value` at position 0 returns `Ok (v, n)` where `n` is exactly the
encoded length, which equals 1 + the payload size of the value's tag. -/
theorem C1_value_roundtrip (v : Value) (h : ValueWF v = true) :
    decode_value (encode_value v) 0 = .ok (v, (encode_value v).length) ∧
    (encode_value v).length = 1 + payloadSize v := by
  constructor
  · rw [decode_value, List.drop_zero]
    have := decodeV_encode v h []
    rwa [List.append_nil] at this
  · exact encode_length v

theorem C1_value_roundtrip_witness :
    ValueWF (Value.text [226, 130, 172]) = true ∧
    (decode_value (encode_value (Value.text [226, 130, 172])) 0
        = .ok (Value.text [226, 130, 172],
            (encode_value (Value.text [226, 130, 172])).length) ∧
      (encode_value (Value.text [226, 130, 172])).length
        = 1 + payloadSize (Value.text [226, 130, 172])) :=
  ⟨by simp [ValueWF, validUtf8, charLen, contOk, contB, cont1Lo, cont1Hi],
   C1_value_roundtrip (Value.text [226, 130, 172])
     (by simp [ValueWF, validUtf8, charLen, contOk, contB, cont1Lo, cont1Hi])⟩

/-- C2: on every byte buffer and position — in particular on every
truncation of a valid encoding — `decode_value`, `decode_rows_bin` and
`decode_vector_bin` are total functions that return `Ok` or an `Err`
carrying one of the descriptive messages (truncated field, invalid UTF-8,
JSON parse failure, unknown tag, short/truncated result headers); no panic
or out-of-bounds access exists in the model, which checks every length
before slicing exactly as the code does. -/
theorem C2_truncation_safety (data : List Nat) (pos : Nat) :
    OkOrDescr (decode_value data pos) ∧ OkOrDescr (decode_rows_bin data) ∧
      OkOrDescr (decode_vector_bin data) :=
  ⟨decode_value_total data pos, decode_rows_bin_total data,
    decode_vector_bin_total data⟩

/-- C9: whenever the byte at the decode position is a tag outside 0–9, the
decoder returns the unknown-tag error naming that tag (and in particular
never `Ok`). -/
theorem C9_unknown_tag (pre rest : List Nat) (tag : Nat) (h : 10 ≤ tag) :
    decode_value (pre ++ tag :: rest) pre.length
      = .error ("unknown binary type tag: " ++ Nat.repr tag) := by
  have hne : ∀ k : Nat, k < 10 → ¬tag = k := by omega
  rw [decode_value, List.drop_left, decodeV]
  rw [if_neg (hne 0 (by norm_num)), if_neg (hne 1 (by norm_num)),
    if_neg (hne 2 (by norm_num)), if_neg (hne 3 (by norm_num)),
    if_neg (hne 4 (by norm_num)), if_neg (hne 5 (by norm_num)),
    if_neg (hne 6 (by norm_num)), if_neg (hne 7 (by norm_num)),
    if_neg (hne 8 (by norm_num)), if_neg (hne 9 (by norm_num))]

theorem C9_unknown_tag_witness :
    10 ≤ 10 ∧ decode_value ([] ++ 10 :: []) (List.length ([] : List Nat))
      = .error ("unknown binary type tag: " ++ Nat.repr 10) :=
  ⟨by decide, C9_unknown_tag [] [] 10 (by decide)⟩

/-- C10: the Boolean decoder accepts any payload byte: decoding `[5, b]`
always succeeds with `Boolean (b ≠ 0)` and consumes exactly 2 bytes —
while the encoder only ever emits payload bytes 0 and 1. -/
theorem C10_boolean_leniency (b : Nat) :
    decode_value [5, b] 0 = .ok (Value.boolean (b != 0), 2) ∧
    ∀ (c : Bool), encode_value (Value.boolean c) = [5, if c then 1 else 0] := by
  constructor
  · rw [decode_value, List.drop_zero, decodeV]
    rw [if_neg (by decide), if_neg (by omega), if_neg (by decide), if_neg (by omega),
      if_neg (by decide), if_pos rfl, if_neg (by simp)]
    rfl
  · intro c
    cases c <;> rfl

theorem hitsBytes_length (hits : List (Nat × Nat)) :
    ((hits.map (fun p => toLe 8 p.1 ++ toLe 4 p.2)).flatten).length
      = 12 * hits.length := by
  induction hits with
  | nil => simp
  | cons p ps ih =>
      rw [List.map_cons, List.flatten_cons, List.length_append, ih,
        List.length_append, toLe_length, toLe_length, List.length_cons]
      ring

/-- C4: decoding the 8-byte header (row count, column count, both u32 LE)
followed by the row-major concatenation of each cell's encoding returns
exactly the original grid. -/
theorem C4_rowset_framing (rows : List (List Value)) (cols : Nat)
    (hr : rows.length < 2 ^ 32) (hc : cols < 2 ^ 32)
    (hrect : ∀ r ∈ rows, r.length = cols)
    (hwf : ∀ r ∈ rows, ∀ c ∈ r, ValueWF c = true) :
    decode_rows_bin (toLe 4 rows.length ++ toLe 4 cols ++ rowsBytes rows)
      = .ok rows := by
  rw [decode_rows_bin, List.append_assoc]
  rw [if_neg (by simp only [List.length_append, toLe_length, Nat.not_lt]; omega)]
  rw [take_app (toLe_length 4 rows.length)]
  rw [drop_app (toLe_length 4 rows.length), take_app (toLe_length 4 cols)]
  rw [fromLe_toLe_of_lt (by rw [pow256_4]; exact hc),
    fromLe_toLe_of_lt (by rw [pow256_4]; exact hr)]
  have hdrop : (toLe 4 rows.length ++ (toLe 4 cols ++ rowsBytes rows)).drop 8
      = rowsBytes rows ++ [] := by
    rw [show (8 : Nat) = 4 + 4 from rfl, ← List.drop_drop,
      drop_app (toLe_length 4 rows.length), drop_app (toLe_length 4 cols),
      List.append_nil]
  rw [decodeRows_encode rows cols hrect hwf _ 8 [] hdrop]
  rfl

theorem C4_rowset_framing_witness :
    ((1 : Nat) < 2 ^ 32 ∧ (2 : Nat) < 2 ^ 32 ∧
      (∀ r ∈ [[Value.null, Value.boolean true]], List.length r = 2) ∧
      (∀ r ∈ [[Value.null, Value.boolean true]], ∀ c ∈ r, ValueWF c = true)) ∧
    decode_rows_bin (toLe 4 (List.length [[Value.null, Value.boolean true]])
        ++ toLe 4 2 ++ rowsBytes [[Value.null, Value.boolean true]])
      = .ok [[Value.null, Value.boolean true]] :=
  ⟨⟨by decide, by decide, by decide, by decide⟩,
   C4_rowset_framing [[Value.null, Value.boolean true]] 2 (by decide) (by decide)
     (by decide) (by decide)⟩

/-- C5: decoding the 4-byte LE count followed by the 12-byte entries
(u64 LE id, f32 LE distance bits) returns exactly the original ordered
list; and a buffer whose remainder is shorter than count × 12 bytes fails
with the truncation error. -/
theorem C5_vector_hits (hits : List (Nat × Nat))
    (hn : hits.length < 2 ^ 32)
    (hw : ∀ p ∈ hits, p.1 < 2 ^ 64 ∧ p.2 < 2 ^ 32) :
    decode_vector_bin (toLe 4 hits.length
        ++ (hits.map (fun p => toLe 8 p.1 ++ toLe 4 p.2)).flatten)
      = .ok hits ∧
    ∀ (data : List Nat), 4 ≤ data.length →
      data.length < 4 + fromLe (data.take 4) * 12 →
      decode_vector_bin data = .error "vector binary result truncated" := by
  constructor
  · rw [decode_vector_bin]
    rw [if_neg (by simp [List.length_append, toLe_length])]
    rw [take_app (toLe_length 4 hits.length)]
    rw [fromLe_toLe_of_lt (by rw [pow256_4]; exact hn)]
    rw [if_neg (by
      simp only [List.length_append, toLe_length, hitsBytes_length, Nat.not_lt]
      omega)]
    rw [drop_app (toLe_length 4 hits.length)]
    have := readHits_encode hits [] hw
    rw [List.append_nil] at this
    rw [this]
  · intro data h4 hshort
    rw [decode_vector_bin, if_neg (by omega), if_pos hshort]

theorem C5_vector_hits_witness :
    ((List.length [((7 : Nat), (1040187392 : Nat)), (3, 1092616192)] < 2 ^ 32) ∧
      (∀ p ∈ [((7 : Nat), (1040187392 : Nat)), (3, 1092616192)],
        p.1 < 2 ^ 64 ∧ p.2 < 2 ^ 32) ∧
      4 ≤ List.length [1, 0, 0, 0] ∧
      List.length [1, 0, 0, 0] < 4 + fromLe (List.take 4 [1, 0, 0, 0]) * 12) ∧
    decode_vector_bin (toLe 4 (List.length [((7 : Nat), (1040187392 : Nat)), (3, 1092616192)])
        ++ (([((7 : Nat), (1040187392 : Nat)), (3, 1092616192)]).map
            (fun p => toLe 8 p.1 ++ toLe 4 p.2)).flatten)
      = .ok [((7 : Nat), (1040187392 : Nat)), (3, 1092616192)] ∧
    decode_vector_bin [1, 0, 0, 0] = .error "vector binary result truncated" :=
  ⟨⟨by decide, by decide, by decide, by decide⟩,
   (C5_vector_hits [((7 : Nat), (1040187392 : Nat)), (3, 1092616192)]
     (by decide) (by decide)).1,
   (C5_vector_hits [((7 : Nat), (1040187392 : Nat)), (3, 1092616192)]
     (by decide) (by decide)).2 [1, 0, 0, 0] (by decide) (by decide)⟩

/-- C6: an empty result is an empty RowSet, not an error: when the boundary
call succeeds (status 0) and returns a null pointer or a zero-length
buffer, `run_sql` and `run_sql_param` return `Ok []`; and a buffer that is
exactly an 8-byte header declaring zero rows decodes to `Ok []` whatever
its column-count bytes are. -/
theorem C6_empty_result (out : BoundaryOut) (params : List Value)
    (hrc : out.rc = 0) (hbuf : out.buf = none ∨ out.buf = some []) :
    run_sql out = .ok [] ∧ run_sql_param params out = .ok [] ∧
    ∀ (a b c d : Nat), decode_rows_bin [0, 0, 0, 0, a, b, c, d] = .ok [] := by
  refine ⟨?_, ?_, ?_⟩
  · rw [run_sql, if_neg (by omega)]
    rcases hbuf with h | h <;> rw [h]
    rfl
  · rw [run_sql_param, if_neg (by omega)]
    rcases hbuf with h | h <;> rw [h]
    rfl
  · intro a b c d
    rw [decode_rows_bin, if_neg (by simp)]
    rfl

theorem C6_empty_result_witness :
    ((BoundaryOut.mk 0 none).rc = 0 ∧
      ((BoundaryOut.mk 0 none).buf = none ∨ (BoundaryOut.mk 0 none).buf = some [])) ∧
    (run_sql (BoundaryOut.mk 0 none) = .ok [] ∧
      run_sql_param [] (BoundaryOut.mk 0 none) = .ok [] ∧
      ∀ (a b c d : Nat), decode_rows_bin [0, 0, 0, 0, a, b, c, d] = .ok []) :=
  ⟨⟨rfl, Or.inl rfl⟩, C6_empty_result (BoundaryOut.mk 0 none) [] rfl (Or.inl rfl)⟩

theorem bindGo_cons0 (b : Nat) (l : List Nat) (ps : List Value)
    (h63 : ¬b = 63) (h39 : ¬b = 39) :
    bindGo (b :: l) ps 0 = b :: bindGo l ps 0 := by
  rw [bindGo.eq_def]
  simp [h63, h39]

theorem bindGo_open (l : List Nat) (ps : List Value) :
    bindGo (39 :: l) ps 0 = 39 :: bindGo l ps 1 := rfl

theorem bindGo_quote1 (l : List Nat) (ps : List Value) :
    bindGo (39 :: l) ps 1 = bindGo l ps 2 := rfl

theorem bindGo_cons1 (b : Nat) (l : List Nat) (ps : List Value)
    (h39 : ¬b = 39) :
    bindGo (b :: l) ps 1 = b :: bindGo l ps 1 := by
  rw [bindGo.eq_def]
  simp [h39]

theorem bindGo_quote2 (l : List Nat) (ps : List Value) :
    bindGo (39 :: l) ps 2 = 39 :: 39 :: bindGo l ps 1 := rfl

theorem bindGo_cons2 (b : Nat) (l : List Nat) (ps : List Value)
    (h39 : ¬b = 39) :
    bindGo (b :: l) ps 2 = 39 :: bindGo (b :: l) ps 0 := by
  by_cases h63 : b = 63
  · subst h63
    rcases ps with _ | ⟨p, ps2⟩ <;> rfl
  · rw [bindGo.eq_def]
    simp [h39, h63]
    rw [bindGo_cons0 b l ps h63 h39]

theorem bindGo_plain (pre : List Nat) (hp : ∀ b ∈ pre, ¬b = 39 ∧ ¬b = 63) :
    ∀ (rest : List Nat) (ps : List Value),
      bindGo (pre ++ rest) ps 0 = pre ++ bindGo rest ps 0 := by
  induction pre with
  | nil => intro rest ps; rfl
  | cons b pre ih =>
      intro rest ps
      have hb := hp b (List.mem_cons_self b pre)
      rw [List.cons_append, bindGo_cons0 b (pre ++ rest) ps hb.2 hb.1,
        ih (fun x hx => hp x (List.mem_cons_of_mem b hx)) rest ps]
      rfl

theorem bindGo_close (tail : List Nat) (ps : List Value)
    (ht : headNotQuote tail = true) :
    bindGo (39 :: tail) ps 1 = 39 :: bindGo tail ps 0 := by
  rw [bindGo_quote1]
  rcases tail with _ | ⟨c, t2⟩
  · rfl
  · have hc : ¬c = 39 := by simpa [headNotQuote] using ht
    exact bindGo_cons2 c t2 ps hc

theorem bindGo_quoted (body : List Nat) :
    ∀ (tail : List Nat) (ps : List Value), isQuotedBody body = true →
      headNotQuote tail = true →
      bindGo (body ++ 39 :: tail) ps 1 = body ++ 39 :: bindGo tail ps 0 := by
  induction body using isQuotedBody.induct with
  | case1 =>
      intro tail ps _ ht
      exact bindGo_close tail ps ht
  | case2 b =>
      intro tail ps hb ht
      have hb39 : ¬b = 39 := by simpa [isQuotedBody] using hb
      show bindGo (b :: 39 :: tail) ps 1 = b :: 39 :: bindGo tail ps 0
      rw [bindGo_cons1 b (39 :: tail) ps hb39, bindGo_close tail ps ht]
  | case3 c rest ih =>
      intro tail ps hb ht
      have hb2 : c = 39 ∧ isQuotedBody rest = true := by
        simpa [isQuotedBody] using hb
      obtain ⟨hc, hrest⟩ := hb2
      subst hc
      show bindGo (39 :: 39 :: (rest ++ 39 :: tail)) ps 1
        = 39 :: 39 :: (rest ++ 39 :: bindGo tail ps 0)
      rw [bindGo_quote1, bindGo_quote2, ih tail ps hrest ht]
  | case4 b c rest h39 ih =>
      intro tail ps hb ht
      have hrest : isQuotedBody (c :: rest) = true := by
        simpa [isQuotedBody, h39] using hb
      show bindGo (b :: ((c :: rest) ++ 39 :: tail)) ps 1
        = b :: ((c :: rest) ++ 39 :: bindGo tail ps 0)
      rw [bindGo_cons1 b ((c :: rest) ++ 39 :: tail) ps h39,
        ih tail ps hrest ht]

/-- C3: the spec-modelled safe parameter binder replaces the un-quoted `?`
with the quote-doubled literal of the Text parameter while copying the
quoted literal (with its doubled-quote escapes) verbatim (the spec's
example); for every template containing a quoted literal — any
quote-and-placeholder-free prefix, any literal body with its inner quotes
doubled, any tail after the closing quote — and every parameter list, the
body is emitted verbatim and scanning resumes at the tail with the SAME
parameter list, so a `?` inside quotes is never treated as a placeholder
and a doubled quote never terminates the literal; and in particular the
fixed template quoting a `?` is returned unchanged for every parameter
list. -/
theorem C3_binder_quoting :
    bind_params (asciiBytes "SELECT * FROM t WHERE name = ? AND note = "
        ++ sq ++ asciiBytes "literal ?? not a param" ++ sq ++ sq ++ sq)
        [Value.text (asciiBytes "it" ++ sq ++ asciiBytes "s")]
      = asciiBytes "SELECT * FROM t WHERE name = " ++ sq ++ asciiBytes "it"
        ++ sq ++ sq ++ asciiBytes "s" ++ sq ++ asciiBytes " AND note = "
        ++ sq ++ asciiBytes "literal ?? not a param" ++ sq ++ sq ++ sq ∧
    (∀ (pre body tail : List Nat) (params : List Value),
      (∀ b ∈ pre, ¬b = 39 ∧ ¬b = 63) → isQuotedBody body = true →
      headNotQuote tail = true →
      bind_params (pre ++ 39 :: (body ++ 39 :: tail)) params
        = pre ++ 39 :: (body ++ 39 :: bindGo tail params 0)) ∧
    ∀ (params : List Value),
      bind_params (sq ++ asciiBytes "? not a param" ++ sq) params
        = sq ++ asciiBytes "? not a param" ++ sq := by
  refine ⟨by decide, ?_, fun params => rfl⟩
  intro pre body tail params hp hb ht
  rw [bind_params, bindGo_plain pre hp (39 :: (body ++ 39 :: tail)) params,
    bindGo_open, bindGo_quoted body tail params hb ht]

theorem C3_binder_quoting_witness :
    ((∀ b ∈ asciiBytes "WHERE note = ", ¬b = 39 ∧ ¬b = 63) ∧
      isQuotedBody (asciiBytes "a?b" ++ sq ++ sq ++ asciiBytes "c") = true ∧
      headNotQuote (asciiBytes " AND x = ?") = true) ∧
    bind_params (asciiBytes "WHERE note = "
        ++ 39 :: (asciiBytes "a?b" ++ sq ++ sq ++ asciiBytes "c"
          ++ 39 :: asciiBytes " AND x = ?")) [Value.null]
      = asciiBytes "WHERE note = "
        ++ 39 :: (asciiBytes "a?b" ++ sq ++ sq ++ asciiBytes "c"
          ++ 39 :: bindGo (asciiBytes " AND x = ?") [Value.null] 0) :=
  ⟨⟨by decide, by decide, by decide⟩,
    C3_binder_quoting.2.1 (asciiBytes "WHERE note = ")
      (asciiBytes "a?b" ++ sq ++ sq ++ asciiBytes "c")
      (asciiBytes " AND x = ?") [Value.null] (by decide) (by decide) (by decide)⟩

theorem bind_asBool_eq_true (o : Option Json) :
    o.bind asBool = some true ↔ o = some (Json.bool true) := by
  rcases o with _ | j
  · simp
  · cases j <;> simp [asBool]

/-- C7: `exec_cmd` succeeds exactly when the response's `ok` field is
literally the boolean `true`; otherwise it fails with the response's
`error` string, or the fixed placeholder "unknown" when the `error` field
is absent or not a string. -/
theorem C7_exec_cmd_contract (resp : Json) :
    (exec_cmd resp = .ok () ↔ jGet resp (asciiBytes "ok") = some (Json.bool true)) ∧
    (∀ s, jGet resp (asciiBytes "ok") ≠ some (Json.bool true) →
      jGet resp (asciiBytes "error") = some (Json.str s) →
      exec_cmd resp = .error s) ∧
    (jGet resp (asciiBytes "ok") ≠ some (Json.bool true) →
      (∀ s, jGet resp (asciiBytes "error") ≠ some (Json.str s)) →
      exec_cmd resp = .error (asciiBytes "unknown")) := by
  refine ⟨?_, ?_, ?_⟩
  · rw [exec_cmd]
    constructor
    · intro h
      by_cases hc : (jGet resp (asciiBytes "ok")).bind asBool = some true
      · exact (bind_asBool_eq_true _).mp hc
      · rw [if_neg hc] at h
        exact absurd h (by simp)
    · intro h
      rw [if_pos ((bind_asBool_eq_true _).mpr h)]
  · intro s hok herr
    rw [exec_cmd, if_neg (fun hc => hok ((bind_asBool_eq_true _).mp hc))]
    rw [herr]
    rfl
  · intro hok herr
    rw [exec_cmd, if_neg (fun hc => hok ((bind_asBool_eq_true _).mp hc))]
    rcases hj : jGet resp (asciiBytes "error") with _ | j
    · rfl
    · cases j with
      | str s => exact absurd hj (herr s)
      | null => rfl
      | bool b => rfl
      | num n => rfl
      | arr es => rfl
      | obj fs => rfl

theorem C7_exec_cmd_contract_witness :
    (jGet (Json.obj [(asciiBytes "ok", Json.bool false)]) (asciiBytes "ok")
        ≠ some (Json.bool true) ∧
      (∀ s, jGet (Json.obj [(asciiBytes "ok", Json.bool false)]) (asciiBytes "error")
        ≠ some (Json.str s))) ∧
    exec_cmd (Json.obj [(asciiBytes "ok", Json.bool false)])
      = .error (asciiBytes "unknown") :=
  ⟨⟨by simp [jGet, lookupField], by simp [jGet, lookupField, asciiBytes]⟩,
   (C7_exec_cmd_contract (Json.obj [(asciiBytes "ok", Json.bool false)])).2.2
     (by simp [jGet, lookupField])
     (by simp [jGet, lookupField, asciiBytes])⟩

/-- C8: the FTS search projection returns the empty hit list whenever
`data.hits` is absent or not an array, filters out entries whose `doc_id`
is missing or not a string or whose `score` is missing or not a number,
and the vector count projection defaults to 0 when `data.count` is
absent. -/
theorem C8_envelope_degradation (resp : Json) :
    ((∀ hs, (jGet resp (asciiBytes "data")).bind (fun d => jGet d (asciiBytes "hits"))
        ≠ some (Json.arr hs)) → fts_search_hits resp = []) ∧
    (∀ hs, (jGet resp (asciiBytes "data")).bind (fun d => jGet d (asciiBytes "hits"))
        = some (Json.arr hs) → fts_search_hits resp = hs.filterMap projHit) ∧
    (∀ h, (∀ d, jGet h (asciiBytes "doc_id") ≠ some (Json.str d)) →
      projHit h = none) ∧
    (∀ h s, jGet h (asciiBytes "doc_id") = some (Json.str s) →
      (∀ n, jGet h (asciiBytes "score") ≠ some (Json.num n)) →
      projHit h = none) ∧
    ((jGet resp (asciiBytes "data")).bind (fun d => jGet d (asciiBytes "count"))
        = none → vector_count resp = 0) := by
  refine ⟨?_, ?_, ?_, ?_, ?_⟩
  · intro habs
    rw [fts_search_hits]
    rcases hj : (jGet resp (asciiBytes "data")).bind
        (fun d => jGet d (asciiBytes "hits")) with _ | j
    · rfl
    · cases j with
      | arr hs => exact absurd hj (habs hs)
      | null => rfl
      | bool b => rfl
      | num n => rfl
      | str s => rfl
      | obj fs => rfl
  · intro hs hj
    rw [fts_search_hits, hj]
  · intro h hd
    rw [projHit]
    rcases hj : jGet h (asciiBytes "doc_id") with _ | j
    · rfl
    · cases j with
      | str d => exact absurd hj (hd d)
      | null => rfl
      | bool b => rfl
      | num n => rfl
      | arr es => rfl
      | obj fs => rfl
  · intro h s hdoc hsc
    rw [projHit, hdoc]
    rcases hj : jGet h (asciiBytes "score") with _ | j
    · rfl
    · cases j with
      | num n => exact absurd hj (hsc n)
      | null => rfl
      | bool b => rfl
      | str d => rfl
      | arr es => rfl
      | obj fs => rfl
  · intro hnone
    rw [vector_count, hnone]

theorem C8_envelope_degradation_witness :
    ((∀ hs, (jGet (Json.obj [(asciiBytes "ok", Json.bool true)]) (asciiBytes "data")).bind
        (fun d => jGet d (asciiBytes "hits")) ≠ some (Json.arr hs)) ∧
      (jGet (Json.obj [(asciiBytes "ok", Json.bool true)]) (asciiBytes "data")).bind
        (fun d => jGet d (asciiBytes "count")) = none) ∧
    (fts_search_hits (Json.obj [(asciiBytes "ok", Json.bool true)]) = [] ∧
      vector_count (Json.obj [(asciiBytes "ok", Json.bool true)]) = 0) :=
  ⟨⟨by simp [jGet, lookupField, asciiBytes], by simp [jGet, lookupField, asciiBytes]⟩,
   (C8_envelope_degradation (Json.obj [(asciiBytes "ok", Json.bool true)])).1
     (by simp [jGet, lookupField, asciiBytes]),
   (C8_envelope_degradation (Json.obj [(asciiBytes "ok", Json.bool true)])).2.2.2.2
     (by simp [jGet, lookupField, asciiBytes])⟩

end Talon

